import Mathlib

/-!
Verification of the Tableau workbook migration and export scripts
(tableau_migration.py and automate_workbook_export.py).

The Python code is shallowly embedded: external services (the Tableau REST
client, the HTTP layer) are parameters describing the outcome of each remote
call, while all control flow, string handling, retry cascades and local file
manipulation performed by the scripts themselves are translated directly.
The local filesystem is modelled explicitly as a map from path strings to
file entries carrying a size and a creation stamp, because the scripts
inspect sizes, remove files and scan directories.
-/

namespace TableauAuto

/-- A Tableau project as exposed by the server client: id, name and optional
parent id (projects form a tree via parent ids). -/
structure ProjectItem where
  id : String
  name : String
  parent_id : Option String
  deriving DecidableEq, Repr

/-- A Tableau workbook handle: id, name and containing project id. -/
structure WorkbookItem where
  id : String
  name : String
  project_id : String
  deriving DecidableEq, Repr

/-- Model of Python str.lower(): character-wise lowering of the string data.
Used for every case-insensitive comparison in the scripts. -/
def strLower (s : String) : String :=
  ⟨s.data.map Char.toLower⟩

theorem strLower_length (s : String) : (strLower s).length = s.length := by
  show (s.data.map Char.toLower).length = s.data.length
  simp

/-! ## Listing operations (tableau_migration.py)

Enumeration of the remote collection (the TSC.Pager loop) is modelled as an
`Except String (List _)` parameter: `.ok` is a completed enumeration, `.error`
is the enumeration raising. -/

/-- tableau_migration.py lines 166-176 (TableauMigrator.list_projects):
the Pager enumeration result is returned as-is; there is no try/except in
this method, so an enumeration failure propagates to the caller. -/
def list_projects (pager : Except String (List ProjectItem)) :
    Except String (List ProjectItem) :=
  match pager with
  | .ok ps => .ok ps
  | .error e => .error e

/-- tableau_migration.py lines 178-213 (TableauMigrator.list_workbooks):
enumerate all workbooks inside a try/except that logs and returns [] on
failure; when a truthy project_id is given, filter locally by a
case-insensitive string comparison of project ids. -/
def list_workbooks (pager : Except String (List WorkbookItem))
    (project_id : Option String) : List WorkbookItem :=
  match pager with
  | .error _ => []
  | .ok wbs =>
    match project_id with
    | none => wbs
    | some pid =>
      if pid = "" then wbs
      else wbs.filter (fun wb => decide (strLower wb.project_id = strLower pid))

/-- tableau_migration.py lines 550-582
(TableauMigrator.list_workbooks_by_project_name): enumerate projects inside
a try/except returning [] on failure, pick the first project whose name
matches case-insensitively (returning [] when none does) and delegate to
list_workbooks with its id. -/
def list_workbooks_by_project_name
    (projPager : Except String (List ProjectItem))
    (wbPager : Except String (List WorkbookItem))
    (project_name : String) : List WorkbookItem :=
  match projPager with
  | .error _ => []
  | .ok ps =>
    match ps.filter (fun p => decide (strLower p.name = strLower project_name)) with
    | [] => []
    | p :: _ => list_workbooks wbPager (some p.id)

/-- tableau_migration.py lines 584-618 (TableauMigrator.find_workbook_by_name):
list workbooks (optionally filtered by project), keep the case-insensitive
name matches, return the first or none. -/
def find_workbook_by_name (pager : Except String (List WorkbookItem))
    (workbook_name : String) (project_id : Option String) : Option WorkbookItem :=
  match (list_workbooks pager project_id).filter
      (fun wb => decide (strLower wb.name = strLower workbook_name)) with
  | [] => none
  | wb :: _ => some wb

/-! ## ensure_project_exists (tableau_migration.py lines 215-238) -/

/-- tableau_migration.py lines 215-238 (TableauMigrator.ensure_project_exists):
server-side filter of target projects by exact name equality; among the
matches return the first whose parent id equals the requested one (None
matching only top-level projects); otherwise create a project with exactly
the requested name and parent id. `target` is the target server's project
list, `freshId` the id the server would assign to a newly created project.
Returns (project, new target state, created?). -/
def ensure_project_exists (target : List ProjectItem) (project_name : String)
    (parent_id : Option String) (freshId : String) :
    ProjectItem × List ProjectItem × Bool :=
  let matching := target.filter (fun p => decide (p.name = project_name))
  match matching.find? (fun p => decide (p.parent_id = parent_id)) with
  | some p => (p, target, false)
  | none =>
    let np : ProjectItem := ⟨freshId, project_name, parent_id⟩
    (np, target ++ [np], true)

/-! ## Publish retry (tableau_migration.py lines 375-419) -/

/-- The two publish modes used by migrate_workbook. -/
inductive PublishMode where
  | Overwrite
  | CreateNew
  deriving DecidableEq, Repr

/-- tableau_migration.py lines 375-419, the publish portion of
migrate_workbook: publish with Overwrite; if that try-block raises, retry
exactly once with CreateNew; if the retry raises too, re-raise that error.
`pub` gives the outcome of one publish call; the returned list records the
publish modes attempted, in order. -/
def publishWithRetry (pub : PublishMode → Except String Unit) :
    List PublishMode × Except String Unit :=
  match pub .Overwrite with
  | .ok _ => ([.Overwrite], .ok ())
  | .error _ =>
    match pub .CreateNew with
    | .ok _ => ([.Overwrite, .CreateNew], .ok ())
    | .error e => ([.Overwrite, .CreateNew], .error e)

/-! ## Nexus upload (automate_workbook_export.py lines 99-115) -/

/-- An HTTP response: status code and body text. -/
structure HttpResponse where
  status_code : Nat
  text : String
  deriving DecidableEq, Repr

/-- automate_workbook_export.py lines 99-115 (upload_to_nexus), given the
response of the HTTP PUT: status 200/201/204 is success; any other status
raises with the response body embedded in the message. -/
def upload_to_nexus (resp : HttpResponse) : Except String Unit :=
  if resp.status_code = 200 ∨ resp.status_code = 201 ∨ resp.status_code = 204 then
    .ok ()
  else
    .error ("Nexus upload failed: " ++ resp.text)

/-! ## Source project resolution (automate_workbook_export.py lines 53-65) -/

/-- automate_workbook_export.py lines 53-65, inside
download_tableau_workbook: an argument longer than 20 characters is used
verbatim as a project id; otherwise projects are listed and the first
case-insensitive name match supplies the id, raising when there is no match
(or when the matched id is falsy, via the `if not project_id` test). -/
def resolve_source_project (projPager : Except String (List ProjectItem))
    (source_project : String) : Except String String :=
  if source_project.length > 20 then .ok source_project
  else
    match list_projects projPager with
    | .error e => .error e
    | .ok ps =>
      match ps.find? (fun p => decide (strLower p.name = strLower source_project)) with
      | some p =>
        if p.id = "" then
          .error ("Project '" ++ source_project ++ "' not found on Tableau server")
        else .ok p.id
      | none =>
        .error ("Project '" ++ source_project ++ "' not found on Tableau server")

/-! ## Filesystem model

The scripts create, inspect, delete and enumerate local files, so the local
disk is modelled as a list of entries (full path, size, creation stamp) plus
a monotone clock supplying creation stamps for new files. -/

/-- One file on disk: full path, size in bytes, creation stamp
(os.path.getctime). -/
structure FileEntry where
  path : String
  size : Nat
  ctime : Nat
  deriving DecidableEq, Repr

/-- The local filesystem state. -/
structure Disk where
  files : List FileEntry
  clock : Nat
  deriving DecidableEq, Repr

/-- Look a path up on disk (os.path.exists / os.path.getsize). -/
def Disk.lookup (d : Disk) (p : String) : Option FileEntry :=
  d.files.find? (fun f => decide (f.path = p))

/-- Create or overwrite a file; it receives the current clock as ctime. -/
def Disk.write (d : Disk) (p : String) (n : Nat) : Disk :=
  { files := ⟨p, n, d.clock⟩ :: d.files.filter (fun f => decide (¬ f.path = p))
    clock := d.clock + 1 }

/-- Delete a file (os.remove). -/
def Disk.remove (d : Disk) (p : String) : Disk :=
  { files := d.files.filter (fun f => decide (¬ f.path = p)), clock := d.clock }

/-- Python str.endswith, via the underlying character lists. -/
def strEndsWith (s suffix : String) : Bool :=
  decide (suffix.data = s.data.drop (s.data.length - suffix.data.length))

/-- os.path.join for a directory and a relative name. -/
def pjoin (a b : String) : String :=
  if a = "" then b
  else if strEndsWith a "/" then a ++ b
  else a ++ "/" ++ b

/-- The path `p` lies underneath directory `dir` (is of the form
`pjoin dir s`). -/
def isUnder (dir p : String) : Prop := ∃ s, p = pjoin dir s

/-- Name of `p` as a direct child of directory `dir`, if it is one:
`p = pjoin dir rest` with `rest` nonempty and slash-free. -/
def dirChild (dir p : String) : Option String :=
  let pre := (pjoin dir "").data
  let rest := p.data.drop pre.length
  if p.data = pre ++ rest ∧ ¬ rest = [] ∧ ¬ rest.contains '/' then some ⟨rest⟩
  else none

/-- os.listdir: names of the direct children of `dir` present on disk. -/
def Disk.listdir (d : Disk) (dir : String) : List String :=
  d.files.filterMap (fun f => dirChild dir f.path)

/-- ctime of a path, defaulting to 0 when absent (only queried on paths
known to exist). -/
def Disk.ctimeOf (d : Disk) (p : String) : Nat :=
  match d.lookup p with
  | some f => f.ctime
  | none => 0

/-- Python max(xs, key) over a nonempty list: the first element attaining
the maximal key. -/
def maxByKey (key : String → Nat) (x : String) (xs : List String) : String :=
  xs.foldl (fun b a => if key a > key b then a else b) x

/-! ## Download cascade of automate_workbook_export.download_tableau_workbook
(lines 50-87) -/

/-- Outcome of one `workbooks.download(id, filepath, ...)` call:
the call raises, returns without creating the file, or writes the file with
the given size. -/
inductive DlRes where
  | raises (msg : String)
  | noop
  | writes (size : Nat)
  deriving DecidableEq, Repr

/-- Python's `.replace(' ', '_')` used on workbook names (line 77). -/
def safeWorkbookName (s : String) : String :=
  ⟨s.data.map (fun c => if c = ' ' then '_' else c)⟩

/-- One iteration of the extension loop of download_tableau_workbook
(lines 78-86): attempt the download to `candidate`; on a non-raising call,
accept the candidate iff it exists with size > 0. A zero-size candidate is
NOT removed here (unlike migrate_workbook). Returns the disk and the
accepted path, if any. -/
def dtwAttempt (extDl : String → DlRes) (download_dir safe ext : String)
    (d : Disk) : Disk × Option String :=
  let candidate := pjoin download_dir (safe ++ ext)
  match extDl ext with
  | .raises _ => (d, none)
  | .noop =>
    match d.lookup candidate with
    | some f => if f.size > 0 then (d, some candidate) else (d, none)
    | none => (d, none)
  | .writes n =>
    let d1 := d.write candidate n
    if n > 0 then (d1, some candidate) else (d1, none)

/-- The extension loop of download_tableau_workbook (lines 78-87):
try '.twbx' then '.twb'; return the first accepted candidate path, raising
when neither attempt is accepted. -/
def dtwCascade (extDl : String → DlRes) (download_dir safe : String)
    (d : Disk) : Except String String × Disk :=
  match (dtwAttempt extDl download_dir safe ".twbx" d).2 with
  | some p => (.ok p, (dtwAttempt extDl download_dir safe ".twbx" d).1)
  | none =>
    match (dtwAttempt extDl download_dir safe ".twb"
        ((dtwAttempt extDl download_dir safe ".twbx" d).1)).2 with
    | some p => (.ok p, (dtwAttempt extDl download_dir safe ".twb"
        ((dtwAttempt extDl download_dir safe ".twbx" d).1)).1)
    | none =>
      (.error "Unable to download workbook in either .twbx or .twb format.",
       (dtwAttempt extDl download_dir safe ".twb"
        ((dtwAttempt extDl download_dir safe ".twbx" d).1)).1)

/-- automate_workbook_export.py lines 50-87 (download_tableau_workbook):
resolve the source project argument to a project id, look the workbook up by
name within it (raising when absent), then run the two-extension download
cascade on the workbook's space-sanitized name. -/
def download_tableau_workbook (projPager : Except String (List ProjectItem))
    (wbPager : Except String (List WorkbookItem)) (extDl : String → DlRes)
    (workbook_name source_project download_dir : String) (d : Disk) :
    Except String String × Disk :=
  match resolve_source_project projPager source_project with
  | .error e => (.error e, d)
  | .ok project_id =>
    match find_workbook_by_name wbPager workbook_name (some project_id) with
    | none =>
      (.error ("Workbook '" ++ workbook_name ++ "' not found in project '" ++
        source_project ++ "'"), d)
    | some wb => dtwCascade extDl download_dir (safeWorkbookName wb.name) d

/-! ## migrate_workbook (tableau_migration.py lines 240-431) -/

/-- re.sub(r'[^\w\-_.]', '_', s) on line 276: keep word characters, dashes,
underscores and dots, replace everything else by an underscore. -/
def sanitizeFilename (s : String) : String :=
  ⟨s.data.map (fun c =>
    if c.isAlphanum ∨ c = '_' ∨ c = '-' ∨ c = '.' then c else '_')⟩

/-- Outcome of the alternative download approach (lines 313-358), i.e. the
download call with `filepath=temp_dir` including the inner TypeError retry
without `include_extract`: the combined call raises, returns a path string
(having written that file with the given size when `written = some size`),
or returns None after writing the listed (relative name, size) files into
the temp directory. -/
inductive AltRes where
  | raises (msg : String)
  | pathRet (p : String) (written : Option Nat)
  | noneRet (written : List (String × Nat))
  deriving Repr

/-- Result of the download portion of migrate_workbook: disk state, the
last value of the `workbook_file` variable, and the `downloaded` flag. -/
structure DlPhase where
  disk : Disk
  workbook_file : Option String
  downloaded : Bool
  deriving Repr

/-- One iteration of the extension loop of migrate_workbook (lines 284-309):
download to `temp_dir/safe+ext`; on a non-raising call, if the file exists
with size > 0 accept it, and if it exists with size 0 REMOVE it
(os.remove on line 304) and continue. -/
def mwAttempt (extDl : String → DlRes) (temp_dir safe ext : String)
    (d : Disk) : Disk × Option String :=
  let workbook_file := pjoin temp_dir (safe ++ ext)
  match extDl ext with
  | .raises _ => (d, none)
  | .noop =>
    match d.lookup workbook_file with
    | some f =>
      if f.size > 0 then (d, some workbook_file)
      else (d.remove workbook_file, none)
    | none => (d, none)
  | .writes n =>
    let d1 := d.write workbook_file n
    if n > 0 then (d1, some workbook_file)
    else (d1.remove workbook_file, none)

/-- The extension loop of migrate_workbook over ['.twbx', '.twb']
(lines 279-309). The error_messages list only feeds logging and is omitted. -/
def mwCascade (extDl : String → DlRes) (temp_dir safe : String) (d : Disk) :
    Disk × Option String :=
  match (mwAttempt extDl temp_dir safe ".twbx" d).2 with
  | some p => ((mwAttempt extDl temp_dir safe ".twbx" d).1, some p)
  | none => mwAttempt extDl temp_dir safe ".twb"
      ((mwAttempt extDl temp_dir safe ".twbx" d).1)

/-- The alternative download approach of migrate_workbook (lines 312-358),
entered only when the extension cascade failed: `workbook_file` is first
reset to temp_dir/workbook.twbx; a returned path is accepted whenever the
file exists — with NO size check; a None return triggers a scan of the temp
directory for the newest .twb/.twbx file, also accepted without a size
check. -/
def mwAltPhase (alt : AltRes) (temp_dir : String) (d : Disk) : DlPhase :=
  let wf0 := pjoin temp_dir "workbook.twbx"
  match alt with
  | .raises _ => ⟨d, some wf0, false⟩
  | .pathRet p written =>
    let d1 := match written with
      | some n => d.write p n
      | none => d
    match d1.lookup p with
    | some _ => ⟨d1, some p, true⟩
    | none => ⟨d1, some wf0, false⟩
  | .noneRet written =>
    let d1 := written.foldl (fun dd nm => dd.write (pjoin temp_dir nm.1) nm.2) d
    let possible := (d1.listdir temp_dir).filter
      (fun f => strEndsWith f ".twb" || strEndsWith f ".twbx")
    match possible with
    | [] => ⟨d1, some wf0, false⟩
    | f :: fs =>
      let newest := maxByKey (fun nm => d1.ctimeOf (pjoin temp_dir nm)) f fs
      let wf := pjoin temp_dir newest
      match d1.lookup wf with
      | some _ => ⟨d1, some wf, true⟩
      | none => ⟨d1, some wf, false⟩

/-- The whole download portion of migrate_workbook (lines 275-364):
extension cascade, then the alternative approach when nothing was
downloaded. -/
def mwDownload (extDl : String → DlRes) (alt : AltRes)
    (temp_dir safe : String) (d : Disk) : DlPhase :=
  match (mwCascade extDl temp_dir safe d).2 with
  | some p => ⟨(mwCascade extDl temp_dir safe d).1, some p, true⟩
  | none => mwAltPhase alt temp_dir (mwCascade extDl temp_dir safe d).1

/-- The finally-block of migrate_workbook (lines 424-431): remove
workbook_file only when it is set, still exists and the temp directory is
auto-managed (should_delete_temp_dir). -/
def mwCleanup (d : Disk) (workbook_file : Option String)
    (should_delete_temp_dir : Bool) : Disk :=
  match workbook_file with
  | none => d
  | some p =>
    if (d.lookup p).isSome ∧ should_delete_temp_dir then d.remove p
    else d

/-- tableau_migration.py lines 240-431 (TableauMigrator.migrate_workbook):
verify the workbook id (getById none models get_by_id raising, which ends
in the ValueError of line 273), run the download cascade, publish with the
Overwrite-then-CreateNew retry, and in all cases run the cleanup
finally-block. Returns the overall outcome, the final disk, and the list of
publish modes attempted. -/
def migrate_workbook (getById : Option WorkbookItem)
    (extDl : String → DlRes) (alt : AltRes)
    (pub : PublishMode → Except String Unit)
    (workbook_id temp_dir : String) (should_delete_temp_dir : Bool)
    (d : Disk) : Except String Unit × Disk × List PublishMode :=
  match getById with
  | none =>
    (.error ("Workbook with ID '" ++ workbook_id ++
      "' not found. Please verify the ID is correct."), d, [])
  | some _ =>
    let safe := sanitizeFilename ("workbook_" ++ workbook_id)
    let ph := mwDownload extDl alt temp_dir safe d
    if ph.downloaded then
      let pr := publishWithRetry pub
      (pr.2, mwCleanup ph.disk ph.workbook_file should_delete_temp_dir, pr.1)
    else
      (.error ("Failed to download workbook " ++ workbook_id ++
        " after multiple attempts"),
       mwCleanup ph.disk ph.workbook_file should_delete_temp_dir, [])

/-! ## Project hierarchy replication (tableau_migration.py lines 483-513,
inside migrate_site)

ensure_project_exists is abstracted here as a deterministic function
`ensure : name → target parent id → target project id` (it is verified
separately above); every call made to it is recorded in a log so that the
created parent/child structure can be stated. -/

/-- The dict lookup `project_map[k]` / `k in project_map`: the map is a list
of (source id, target id) pairs, newest first. -/
def pmFind : List (String × String) → String → Option String
  | [], _ => none
  | (k, v) :: rest, i => if i = k then some v else pmFind rest i

/-- State of the replication: the project_map and the log of
ensure_project_exists calls (name, target parent id, returned target id). -/
structure SiteSt where
  pm : List (String × String)
  log : List (String × Option String × String)
  deriving Repr

/-- Perform one ensure_project_exists call for source project `p` with
target parent `parent`, record it, and map `p.id` to the result. -/
def ensureCall (ensure : String → Option String → String) (st : SiteSt)
    (p : ProjectItem) (parent : Option String) : SiteSt :=
  let t := ensure p.name parent
  { pm := (p.id, t) :: st.pm, log := st.log ++ [(p.name, parent, t)] }

/-- Python truthiness of project.parent_id in `if not project.parent_id`
(line 490): None and the empty string are both falsy, i.e. top-level. -/
def isTop (p : ProjectItem) : Bool :=
  decide (p.parent_id = none ∨ p.parent_id = some "")

/-- First pass of migrate_site (lines 489-492): walk all source projects and
create every top-level one on the target. -/
def firstPass (ensure : String → Option String → String) :
    List ProjectItem → SiteSt → SiteSt
  | [], st => st
  | p :: rest, st =>
    if isTop p then firstPass ensure rest (ensureCall ensure st p none)
    else firstPass ensure rest st

/-- One pass of the while loop (lines 498-505): walk the remaining projects
in order, and for each whose parent id is already mapped (the map is
consulted against the state as updated WITHIN the pass), create it under the
mapped target parent. Returns the new state and the handled projects in
order. -/
def onePass (ensure : String → Option String → String) (st : SiteSt) :
    List ProjectItem → SiteSt × List ProjectItem
  | [] => (st, [])
  | p :: rest =>
    match p.parent_id with
    | none => onePass ensure st rest
    | some pid =>
      match pmFind st.pm pid with
      | none => onePass ensure st rest
      | some tpid =>
        let out := onePass ensure (ensureCall ensure st p (some tpid)) rest
        (out.1, p :: out.2)

/-- Every project handled by a pass is one of the remaining projects. -/
theorem onePass_handled_mem (ensure : String → Option String → String) :
    ∀ (rem : List ProjectItem) (st : SiteSt) (q : ProjectItem),
      q ∈ (onePass ensure st rem).2 → q ∈ rem := by
  intro rem
  induction rem with
  | nil => intro st q h; simp [onePass] at h
  | cons p rest ih =>
    intro st q h
    cases hp : p.parent_id with
    | none =>
      simp only [onePass, hp] at h
      exact List.mem_cons_of_mem _ (ih st q h)
    | some pid =>
      cases hf : pmFind st.pm pid with
      | none =>
        simp only [onePass, hp, hf] at h
        exact List.mem_cons_of_mem _ (ih st q h)
      | some tpid =>
        simp only [onePass, hp, hf] at h
        rcases List.mem_cons.mp h with h1 | h2
        · exact h1 ▸ List.mem_cons_self _ _
        · exact List.mem_cons_of_mem _ (ih _ q h2)

/-- The while loop of migrate_site (lines 497-513): repeat passes; when a
pass handles nothing, log an error and break (the Bool result records this
stall); otherwise drop the handled projects from the remaining list and
continue. The Nat result counts the passes executed. -/
def childLoop (ensure : String → Option String → String) (st : SiteSt)
    (remaining : List ProjectItem) : SiteSt × Bool × Nat :=
  if hrem : remaining = [] then (st, false, 0)
  else
    let pr := onePass ensure st remaining
    if hh : pr.2 = [] then (pr.1, true, 1)
    else
      have hlt : (remaining.filter (fun p => decide (¬ p ∈ pr.2))).length <
          remaining.length := by
        refine List.length_filter_lt_length_iff_exists.mpr ?_
        rcases List.exists_mem_of_ne_nil pr.2 hh with ⟨q, hq⟩
        exact ⟨q, onePass_handled_mem ensure remaining st q hq, by simp [hq]⟩
      let out := childLoop ensure pr.1 (remaining.filter (fun p => decide (¬ p ∈ pr.2)))
      (out.1, out.2.1, out.2.2 + 1)
termination_by remaining.length
decreasing_by
  exact hlt

/-- The project hierarchy replication portion of migrate_site
(lines 483-513): first pass creates all top-level projects, the while loop
then creates children of already-mapped parents. Returns the final state,
whether the loop stalled, and how many while-loop passes ran. -/
def migrate_site_hierarchy (ensure : String → Option String → String)
    (source_projects : List ProjectItem) : SiteSt × Bool × Nat :=
  let st0 := firstPass ensure source_projects ⟨[], []⟩
  childLoop ensure st0 (source_projects.filter (fun p => ! isTop p))

/-! ## Disk and path lemmas -/

theorem find?_path_filter (l : List FileEntry) (p q : String) (h : ¬ q = p) :
    (l.filter (fun f => decide (¬ f.path = p))).find? (fun f => decide (f.path = q)) =
    l.find? (fun f => decide (f.path = q)) := by
  induction l with
  | nil => rfl
  | cons f rest ih =>
    by_cases hf : f.path = p
    · have hq : ¬ f.path = q := by rw [hf]; exact fun hh => h hh.symm
      have e1 : (f :: rest).filter (fun f => decide (¬ f.path = p)) =
          rest.filter (fun f => decide (¬ f.path = p)) := by
        simp [List.filter_cons, hf]
      have e2 : (f :: rest).find? (fun f => decide (f.path = q)) =
          rest.find? (fun f => decide (f.path = q)) := by
        simp [List.find?_cons, hq]
      rw [e1, e2, ih]
    · have e1 : (f :: rest).filter (fun f => decide (¬ f.path = p)) =
          f :: rest.filter (fun f => decide (¬ f.path = p)) := by
        simp [List.filter_cons, hf]
      by_cases hq : f.path = q
      · have e2 : ∀ l, (f :: l).find? (fun f => decide (f.path = q)) = some f := by
          intro l; simp [List.find?_cons, hq]
        rw [e1, e2, e2]
      · have e2 : ∀ l, (f :: l).find? (fun f => decide (f.path = q)) =
            l.find? (fun f => decide (f.path = q)) := by
          intro l; simp [List.find?_cons, hq]
        rw [e1, e2, e2, ih]

theorem Disk.lookup_write_self (d : Disk) (p : String) (n : Nat) :
    (d.write p n).lookup p = some ⟨p, n, d.clock⟩ := by
  simp [Disk.write, Disk.lookup, List.find?_cons]

theorem Disk.lookup_write_ne (d : Disk) (p q : String) (n : Nat) (h : ¬ q = p) :
    (d.write p n).lookup q = d.lookup q := by
  simp only [Disk.write, Disk.lookup]
  rw [List.find?_cons_of_neg]
  · exact find?_path_filter d.files p q h
  · simpa using fun hh => h hh.symm

theorem Disk.lookup_remove_self (d : Disk) (p : String) :
    (d.remove p).lookup p = none := by
  simp only [Disk.remove, Disk.lookup]
  rw [List.find?_eq_none]
  intro f hf
  have := (List.mem_filter.mp hf).2
  simpa using this

theorem Disk.lookup_remove_ne (d : Disk) (p q : String) (h : ¬ q = p) :
    (d.remove p).lookup q = d.lookup q := by
  simp only [Disk.remove, Disk.lookup]
  exact find?_path_filter d.files p q h

theorem str_append_left_cancel (x a b : String) (h : x ++ a = x ++ b) : a = b := by
  have hd : x.data ++ a.data = x.data ++ b.data := congrArg String.data h
  have hab : a.data = b.data := List.append_cancel_left hd
  cases a
  cases b
  exact congrArg String.mk hab

theorem pjoin_inj_right (dir a b : String) (h : pjoin dir a = pjoin dir b) : a = b := by
  unfold pjoin at h
  split_ifs at h
  · exact h
  · exact str_append_left_cancel dir a b h
  · exact str_append_left_cancel (dir ++ "/") a b (by
      calc dir ++ "/" ++ a = dir ++ "/" ++ b := h)

theorem twbx_ne_twb (safe : String) : ¬ (safe ++ ".twbx" = safe ++ ".twb") := by
  intro h
  have hl := congrArg String.length h
  rw [String.length_append, String.length_append] at hl
  have h5 : String.length ".twbx" = 5 := rfl
  have h4 : String.length ".twb" = 4 := rfl
  rw [h5, h4] at hl
  omega

theorem cand_ne (dir safe : String) :
    ¬ pjoin dir (safe ++ ".twbx") = pjoin dir (safe ++ ".twb") :=
  fun h => twbx_ne_twb safe (pjoin_inj_right _ _ _ h)

/-! ## Download cascade lemmas -/

/-- The download attempt for extension `ext` fails to produce a nonempty
file at its candidate path: the call raises, writes an empty file, or
returns without creating the file while no stale file with that name is on
disk `d`. This is the model of "the workbook does not exist under `ext`". -/
def extFails (extDl : String → DlRes) (d : Disk) (cand ext : String) : Prop :=
  (∃ m, extDl ext = .raises m) ∨ extDl ext = .writes 0 ∨
    (extDl ext = .noop ∧ d.lookup cand = none)

theorem dtwAttempt_ok (extDl : String → DlRes) (dir safe ext : String)
    (d : Disk) (n : Nat) (h : extDl ext = .writes n) (hn : 0 < n) :
    dtwAttempt extDl dir safe ext d =
      (d.write (pjoin dir (safe ++ ext)) n, some (pjoin dir (safe ++ ext))) := by
  simp [dtwAttempt, h, hn]

theorem dtwAttempt_fails (extDl : String → DlRes) (dir safe ext : String)
    (d : Disk) (h : extFails extDl d (pjoin dir (safe ++ ext)) ext) :
    (dtwAttempt extDl dir safe ext d).2 = none ∧
    ∀ q, ¬ q = pjoin dir (safe ++ ext) →
      ((dtwAttempt extDl dir safe ext d).1).lookup q = d.lookup q := by
  rcases h with ⟨m, hm⟩ | hw | ⟨hn, hl⟩
  · simp [dtwAttempt, hm]
  · refine ⟨by simp [dtwAttempt, hw], fun q hq => ?_⟩
    simp only [dtwAttempt, hw]
    simpa using Disk.lookup_write_ne d (pjoin dir (safe ++ ext)) q 0 hq
  · simp [dtwAttempt, hn, hl]

theorem mwAttempt_ok (extDl : String → DlRes) (temp_dir safe ext : String)
    (d : Disk) (n : Nat) (h : extDl ext = .writes n) (hn : 0 < n) :
    mwAttempt extDl temp_dir safe ext d =
      (d.write (pjoin temp_dir (safe ++ ext)) n, some (pjoin temp_dir (safe ++ ext))) := by
  simp [mwAttempt, h, hn]

theorem mwAttempt_fails (extDl : String → DlRes) (temp_dir safe ext : String)
    (d : Disk) (h : extFails extDl d (pjoin temp_dir (safe ++ ext)) ext) :
    (mwAttempt extDl temp_dir safe ext d).2 = none ∧
    ∀ q, ¬ q = pjoin temp_dir (safe ++ ext) →
      ((mwAttempt extDl temp_dir safe ext d).1).lookup q = d.lookup q := by
  rcases h with ⟨m, hm⟩ | hw | ⟨hn, hl⟩
  · simp [mwAttempt, hm]
  · refine ⟨by simp [mwAttempt, hw], fun q hq => ?_⟩
    have h1 : (mwAttempt extDl temp_dir safe ext d).1 =
        (d.write (pjoin temp_dir (safe ++ ext)) 0).remove (pjoin temp_dir (safe ++ ext)) := by
      simp [mwAttempt, hw]
    rw [h1, Disk.lookup_remove_ne _ _ _ hq, Disk.lookup_write_ne _ _ _ _ hq]
  · simp [mwAttempt, hn, hl]

theorem dtwCascade_twbx_ok (extDl : String → DlRes) (dir safe : String)
    (d : Disk) (n : Nat) (h : extDl ".twbx" = .writes n) (hn : 0 < n) :
    dtwCascade extDl dir safe d =
      (.ok (pjoin dir (safe ++ ".twbx")), d.write (pjoin dir (safe ++ ".twbx")) n) := by
  have ha := dtwAttempt_ok extDl dir safe ".twbx" d n h hn
  simp [dtwCascade, ha]

theorem dtwCascade_twb_ok (extDl : String → DlRes) (dir safe : String)
    (d : Disk) (n : Nat)
    (h1 : extFails extDl d (pjoin dir (safe ++ ".twbx")) ".twbx")
    (h2 : extDl ".twb" = .writes n) (hn : 0 < n) :
    (dtwCascade extDl dir safe d).1 = .ok (pjoin dir (safe ++ ".twb")) := by
  obtain ⟨hnone, -⟩ := dtwAttempt_fails extDl dir safe ".twbx" d h1
  have hb := dtwAttempt_ok extDl dir safe ".twb"
    ((dtwAttempt extDl dir safe ".twbx" d).1) n h2 hn
  simp [dtwCascade, hnone, hb]

theorem dtwCascade_neither (extDl : String → DlRes) (dir safe : String)
    (d : Disk)
    (h1 : extFails extDl d (pjoin dir (safe ++ ".twbx")) ".twbx")
    (h2 : extFails extDl d (pjoin dir (safe ++ ".twb")) ".twb") :
    (dtwCascade extDl dir safe d).1 =
      .error "Unable to download workbook in either .twbx or .twb format." := by
  obtain ⟨hnone, hframe⟩ := dtwAttempt_fails extDl dir safe ".twbx" d h1
  have h2b : extFails extDl ((dtwAttempt extDl dir safe ".twbx" d).1)
      (pjoin dir (safe ++ ".twb")) ".twb" := by
    rcases h2 with hr | hw | ⟨hn, hl⟩
    · exact Or.inl hr
    · exact Or.inr (Or.inl hw)
    · refine Or.inr (Or.inr ⟨hn, ?_⟩)
      rw [hframe _ (fun hh => cand_ne dir safe hh.symm)]
      exact hl
  obtain ⟨hnone2, -⟩ := dtwAttempt_fails extDl dir safe ".twb"
    ((dtwAttempt extDl dir safe ".twbx" d).1) h2b
  simp [dtwCascade, hnone, hnone2]

theorem mwCascade_twbx_ok (extDl : String → DlRes) (temp_dir safe : String)
    (d : Disk) (n : Nat) (h : extDl ".twbx" = .writes n) (hn : 0 < n) :
    mwCascade extDl temp_dir safe d =
      (d.write (pjoin temp_dir (safe ++ ".twbx")) n,
       some (pjoin temp_dir (safe ++ ".twbx"))) := by
  have ha := mwAttempt_ok extDl temp_dir safe ".twbx" d n h hn
  simp [mwCascade, ha]

theorem mwCascade_twb_ok (extDl : String → DlRes) (temp_dir safe : String)
    (d : Disk) (n : Nat)
    (h1 : extFails extDl d (pjoin temp_dir (safe ++ ".twbx")) ".twbx")
    (h2 : extDl ".twb" = .writes n) (hn : 0 < n) :
    (mwCascade extDl temp_dir safe d).2 = some (pjoin temp_dir (safe ++ ".twb")) := by
  obtain ⟨hnone, -⟩ := mwAttempt_fails extDl temp_dir safe ".twbx" d h1
  have hb := mwAttempt_ok extDl temp_dir safe ".twb"
    ((mwAttempt extDl temp_dir safe ".twbx" d).1) n h2 hn
  simp [mwCascade, hnone, hb]

theorem mwCascade_neither (extDl : String → DlRes) (temp_dir safe : String)
    (d : Disk)
    (h1 : extFails extDl d (pjoin temp_dir (safe ++ ".twbx")) ".twbx")
    (h2 : extFails extDl d (pjoin temp_dir (safe ++ ".twb")) ".twb") :
    (mwCascade extDl temp_dir safe d).2 = none ∧
    ∀ q, ¬ q = pjoin temp_dir (safe ++ ".twbx") →
      ¬ q = pjoin temp_dir (safe ++ ".twb") →
      ((mwCascade extDl temp_dir safe d).1).lookup q = d.lookup q := by
  obtain ⟨hnone, hframe⟩ := mwAttempt_fails extDl temp_dir safe ".twbx" d h1
  have h2b : extFails extDl ((mwAttempt extDl temp_dir safe ".twbx" d).1)
      (pjoin temp_dir (safe ++ ".twb")) ".twb" := by
    rcases h2 with hr | hw | ⟨hn, hl⟩
    · exact Or.inl hr
    · exact Or.inr (Or.inl hw)
    · refine Or.inr (Or.inr ⟨hn, ?_⟩)
      rw [hframe _ (fun hh => cand_ne temp_dir safe hh.symm)]
      exact hl
  obtain ⟨hnone2, hframe2⟩ := mwAttempt_fails extDl temp_dir safe ".twb"
    ((mwAttempt extDl temp_dir safe ".twbx" d).1) h2b
  constructor
  · simp [mwCascade, hnone, hnone2]
  · intro q hq1 hq2
    have e1 : (mwCascade extDl temp_dir safe d).1 =
        (mwAttempt extDl temp_dir safe ".twb"
          ((mwAttempt extDl temp_dir safe ".twbx" d).1)).1 := by
      simp [mwCascade, hnone]
    rw [e1, hframe2 q hq2, hframe q hq1]

/-- A path accepted by the migrate_workbook extension cascade exists on the
resulting disk with size strictly greater than zero. -/
theorem mwAttempt_accept_size (extDl : String → DlRes) (temp_dir safe ext : String)
    (d : Disk) (p : String)
    (h : (mwAttempt extDl temp_dir safe ext d).2 = some p) :
    ∃ f, ((mwAttempt extDl temp_dir safe ext d).1).lookup p = some f ∧ 0 < f.size := by
  cases hx : extDl ext with
  | raises m => simp [mwAttempt, hx] at h
  | noop =>
    cases hl : d.lookup (pjoin temp_dir (safe ++ ext)) with
    | none => simp [mwAttempt, hx, hl] at h
    | some f =>
      by_cases hs : f.size > 0
      · have e : mwAttempt extDl temp_dir safe ext d =
            (d, some (pjoin temp_dir (safe ++ ext))) := by
          simp [mwAttempt, hx, hl, hs]
        rw [e] at h
        have hp : p = pjoin temp_dir (safe ++ ext) := by simpa using h.symm
        rw [e, hp]
        exact ⟨f, hl, hs⟩
      · have e : mwAttempt extDl temp_dir safe ext d =
            (d.remove (pjoin temp_dir (safe ++ ext)), none) := by
          simp [mwAttempt, hx, hl, hs]
        rw [e] at h
        simp at h
  | writes n =>
    by_cases hs : n > 0
    · have e := mwAttempt_ok extDl temp_dir safe ext d n hx hs
      rw [e] at h
      have hp : p = pjoin temp_dir (safe ++ ext) := by simpa using h.symm
      rw [e, hp]
      exact ⟨⟨pjoin temp_dir (safe ++ ext), n, d.clock⟩,
        Disk.lookup_write_self d (pjoin temp_dir (safe ++ ext)) n, hs⟩
    · have hn0 : n = 0 := by omega
      subst hn0
      simp [mwAttempt, hx] at h

theorem mwCascade_accept_size (extDl : String → DlRes) (temp_dir safe : String)
    (d : Disk) (p : String)
    (h : (mwCascade extDl temp_dir safe d).2 = some p) :
    ∃ f, ((mwCascade extDl temp_dir safe d).1).lookup p = some f ∧ 0 < f.size := by
  cases h1 : (mwAttempt extDl temp_dir safe ".twbx" d).2 with
  | some q =>
    have e : mwCascade extDl temp_dir safe d =
        ((mwAttempt extDl temp_dir safe ".twbx" d).1, some q) := by
      simp [mwCascade, h1]
    rw [e] at h
    have hq : q = p := by simpa using h
    subst hq
    have hacc := mwAttempt_accept_size extDl temp_dir safe ".twbx" d q h1
    rw [e]
    exact hacc
  | none =>
    have e : mwCascade extDl temp_dir safe d =
        mwAttempt extDl temp_dir safe ".twb"
          ((mwAttempt extDl temp_dir safe ".twbx" d).1) := by
      simp [mwCascade, h1]
    rw [e] at h
    rw [e]
    exact mwAttempt_accept_size extDl temp_dir safe ".twb" _ p h

/-- Same acceptance property for download_tableau_workbook's cascade. -/
theorem dtwAttempt_accept_size (extDl : String → DlRes) (dir safe ext : String)
    (d : Disk) (p : String)
    (h : (dtwAttempt extDl dir safe ext d).2 = some p) :
    ∃ f, ((dtwAttempt extDl dir safe ext d).1).lookup p = some f ∧ 0 < f.size := by
  cases hx : extDl ext with
  | raises m => simp [dtwAttempt, hx] at h
  | noop =>
    cases hl : d.lookup (pjoin dir (safe ++ ext)) with
    | none => simp [dtwAttempt, hx, hl] at h
    | some f =>
      by_cases hs : f.size > 0
      · have e : dtwAttempt extDl dir safe ext d =
            (d, some (pjoin dir (safe ++ ext))) := by
          simp [dtwAttempt, hx, hl, hs]
        rw [e] at h
        have hp : p = pjoin dir (safe ++ ext) := by simpa using h.symm
        rw [e, hp]
        exact ⟨f, hl, hs⟩
      · have e : dtwAttempt extDl dir safe ext d = (d, none) := by
          simp [dtwAttempt, hx, hl, hs]
        rw [e] at h
        simp at h
  | writes n =>
    by_cases hs : n > 0
    · have e := dtwAttempt_ok extDl dir safe ext d n hx hs
      rw [e] at h
      have hp : p = pjoin dir (safe ++ ext) := by simpa using h.symm
      rw [e, hp]
      exact ⟨⟨pjoin dir (safe ++ ext), n, d.clock⟩,
        Disk.lookup_write_self d (pjoin dir (safe ++ ext)) n, hs⟩
    · have hn0 : n = 0 := by omega
      subst hn0
      simp [dtwAttempt, hx] at h

theorem dtwCascade_accept_size (extDl : String → DlRes) (dir safe : String)
    (d : Disk) (p : String)
    (h : (dtwCascade extDl dir safe d).1 = .ok p) :
    ∃ f, ((dtwCascade extDl dir safe d).2).lookup p = some f ∧ 0 < f.size := by
  cases h1 : (dtwAttempt extDl dir safe ".twbx" d).2 with
  | some q =>
    have e : dtwCascade extDl dir safe d =
        (.ok q, (dtwAttempt extDl dir safe ".twbx" d).1) := by
      simp [dtwCascade, h1]
    rw [e] at h
    have hq : q = p := by simpa using h
    subst hq
    rw [e]
    exact dtwAttempt_accept_size extDl dir safe ".twbx" d q h1
  | none =>
    cases h2 : (dtwAttempt extDl dir safe ".twb"
        ((dtwAttempt extDl dir safe ".twbx" d).1)).2 with
    | some q =>
      have e : dtwCascade extDl dir safe d =
          (.ok q, (dtwAttempt extDl dir safe ".twb"
            ((dtwAttempt extDl dir safe ".twbx" d).1)).1) := by
        simp [dtwCascade, h1, h2]
      rw [e] at h
      have hq : q = p := by simpa using h
      subst hq
      rw [e]
      exact dtwAttempt_accept_size extDl dir safe ".twb" _ q h2
    | none =>
      have e : (dtwCascade extDl dir safe d).1 =
          .error "Unable to download workbook in either .twbx or .twb format." := by
        simp [dtwCascade, h1, h2]
      rw [e] at h
      exact absurd h (by simp)

theorem mwDownload_cascade_some (extDl : String → DlRes) (alt : AltRes)
    (temp_dir safe : String) (d : Disk) (p : String)
    (h : (mwCascade extDl temp_dir safe d).2 = some p) :
    mwDownload extDl alt temp_dir safe d =
      ⟨(mwCascade extDl temp_dir safe d).1, some p, true⟩ := by
  simp [mwDownload, h]

theorem mwDownload_neither_raises (extDl : String → DlRes) (m : String)
    (temp_dir safe : String) (d : Disk)
    (h : (mwCascade extDl temp_dir safe d).2 = none) :
    mwDownload extDl (.raises m) temp_dir safe d =
      ⟨(mwCascade extDl temp_dir safe d).1,
       some (pjoin temp_dir "workbook.twbx"), false⟩ := by
  simp [mwDownload, h, mwAltPhase]

/-- C1: a workbook available under exactly one of the extensions .twbx and
.twb is downloaded and its path (with that extension) is returned by
download_tableau_workbook and recorded by the download phase of
migrate_workbook; when it is available under neither extension (and, for
migrate_workbook, the alternate call-signature fallback also raises), the
operation raises instead of producing a path. -/
theorem download_one_extension_or_raise
    (extDl : String → DlRes) (d : Disk)
    (projPager : Except String (List ProjectItem))
    (wbPager : Except String (List WorkbookItem))
    (workbook_name source_project download_dir pid : String) (wb : WorkbookItem)
    (hres : resolve_source_project projPager source_project = .ok pid)
    (hwb : find_workbook_by_name wbPager workbook_name (some pid) = some wb)
    (workbook_id temp_dir : String) :
    let dlRun := download_tableau_workbook projPager wbPager extDl workbook_name
      source_project download_dir d
    let safe := safeWorkbookName wb.name
    let msafe := sanitizeFilename ("workbook_" ++ workbook_id)
    ((∀ n, extDl ".twbx" = .writes n → 0 < n →
        dlRun.1 = .ok (pjoin download_dir (safe ++ ".twbx"))) ∧
     (extFails extDl d (pjoin download_dir (safe ++ ".twbx")) ".twbx" →
      ∀ n, extDl ".twb" = .writes n → 0 < n →
        dlRun.1 = .ok (pjoin download_dir (safe ++ ".twb"))) ∧
     (extFails extDl d (pjoin download_dir (safe ++ ".twbx")) ".twbx" →
      extFails extDl d (pjoin download_dir (safe ++ ".twb")) ".twb" →
        dlRun.1 = .error "Unable to download workbook in either .twbx or .twb format.")) ∧
    (∀ alt : AltRes,
      (∀ n, extDl ".twbx" = .writes n → 0 < n →
        (mwDownload extDl alt temp_dir msafe d).downloaded = true ∧
        (mwDownload extDl alt temp_dir msafe d).workbook_file =
          some (pjoin temp_dir (msafe ++ ".twbx"))) ∧
      (extFails extDl d (pjoin temp_dir (msafe ++ ".twbx")) ".twbx" →
       ∀ n, extDl ".twb" = .writes n → 0 < n →
        (mwDownload extDl alt temp_dir msafe d).downloaded = true ∧
        (mwDownload extDl alt temp_dir msafe d).workbook_file =
          some (pjoin temp_dir (msafe ++ ".twb")))) ∧
    (∀ (m : String) (wb2 : WorkbookItem) (pub : PublishMode → Except String Unit)
        (flag : Bool),
      extFails extDl d (pjoin temp_dir (msafe ++ ".twbx")) ".twbx" →
      extFails extDl d (pjoin temp_dir (msafe ++ ".twb")) ".twb" →
      (migrate_workbook (some wb2) extDl (.raises m) pub workbook_id temp_dir
        flag d).1 =
        .error ("Failed to download workbook " ++ workbook_id ++
          " after multiple attempts")) := by
  intro dlRun safe msafe
  have hdl : dlRun = dtwCascade extDl download_dir safe d := by
    simp [dlRun, download_tableau_workbook, hres, hwb, safe]
  refine ⟨⟨?_, ?_, ?_⟩, ?_, ?_⟩
  · intro n hn hpos
    rw [hdl, dtwCascade_twbx_ok extDl download_dir safe d n hn hpos]
  · intro hf n hn hpos
    rw [hdl, dtwCascade_twb_ok extDl download_dir safe d n hf hn hpos]
  · intro hf1 hf2
    rw [hdl, dtwCascade_neither extDl download_dir safe d hf1 hf2]
  · intro alt
    constructor
    · intro n hn hpos
      have hc : (mwCascade extDl temp_dir msafe d).2 =
          some (pjoin temp_dir (msafe ++ ".twbx")) := by
        rw [mwCascade_twbx_ok extDl temp_dir msafe d n hn hpos]
      rw [mwDownload_cascade_some extDl alt temp_dir msafe d _ hc]
      exact ⟨rfl, rfl⟩
    · intro hf n hn hpos
      have hc := mwCascade_twb_ok extDl temp_dir msafe d n hf hn hpos
      rw [mwDownload_cascade_some extDl alt temp_dir msafe d _ hc]
      exact ⟨rfl, rfl⟩
  · intro m wb2 pub flag hf1 hf2
    have hc := (mwCascade_neither extDl temp_dir msafe d hf1 hf2).1
    have hph := mwDownload_neither_raises extDl m temp_dir msafe d hc
    simp only [migrate_workbook, msafe] at hph ⊢
    rw [hph]
    simp

/-- Witness for C1: a workbook available only as .twbx is downloaded with
that extension by download_tableau_workbook. -/
theorem download_one_extension_or_raise_witness :
    (download_tableau_workbook (.ok [⟨"id1", "Fin", none⟩])
        (.ok [⟨"W1", "Sales", "id1"⟩])
        (fun e => if e = ".twbx" then .writes 5 else .raises "x")
        "sales" "fin" "dl" ⟨[], 0⟩).1 =
      .ok (pjoin "dl" (safeWorkbookName "Sales" ++ ".twbx")) := by
  have h := download_one_extension_or_raise
    (fun e => if e = ".twbx" then .writes 5 else .raises "x") ⟨[], 0⟩
    (.ok [⟨"id1", "Fin", none⟩]) (.ok [⟨"W1", "Sales", "id1"⟩])
    "sales" "fin" "dl" "id1" ⟨"W1", "Sales", "id1"⟩ rfl rfl "W1" "t"
  exact h.1.1 5 rfl (by omega)

/-- C2 counterexample: (a) in download_tableau_workbook an empty downloaded
file is skipped but NOT deleted — after the cascade the zero-byte .twbx
file is still on disk; (b) the alternative download approach of
migrate_workbook accepts an existing zero-byte file as the download result,
so acceptance is not restricted to sizes strictly greater than zero. -/
theorem empty_download_counterexample :
    ((dtwCascade (fun e => if e = ".twbx" then .writes 0 else .raises "x")
        "d" "wb" ⟨[], 0⟩).2).lookup (pjoin "d" ("wb" ++ ".twbx")) =
      some ⟨pjoin "d" ("wb" ++ ".twbx"), 0, 0⟩ ∧
    (mwAltPhase (.pathRet "t/f.twbx" (some 0)) "t" ⟨[], 0⟩).downloaded = true ∧
    (mwAltPhase (.pathRet "t/f.twbx" (some 0)) "t" ⟨[], 0⟩).workbook_file =
      some "t/f.twbx" ∧
    ((mwAltPhase (.pathRet "t/f.twbx" (some 0)) "t" ⟨[], 0⟩).disk).lookup
      "t/f.twbx" = some ⟨"t/f.twbx", 0, 0⟩ := by
  refine ⟨?_, ?_, ?_, ?_⟩ <;> decide

/-- C2 amended: in migrate_workbook's extension cascade an empty downloaded
file IS deleted and the next extension attempted, and the cascades of both
functions accept a file only when its size is strictly greater than zero;
but in download_tableau_workbook's cascade the empty file is merely skipped
and left on disk, and the alternative-approach fallback of migrate_workbook
accepts an existing file without any size check. -/
theorem empty_download_discard_behavior :
    (∀ (extDl : String → DlRes) temp_dir safe ext (d : Disk),
      extDl ext = .writes 0 →
      (mwAttempt extDl temp_dir safe ext d).2 = none ∧
      ((mwAttempt extDl temp_dir safe ext d).1).lookup
        (pjoin temp_dir (safe ++ ext)) = none) ∧
    (∀ (extDl : String → DlRes) temp_dir safe (d : Disk) p,
      (mwCascade extDl temp_dir safe d).2 = some p →
      ∃ f, ((mwCascade extDl temp_dir safe d).1).lookup p = some f ∧ 0 < f.size) ∧
    (∀ (extDl : String → DlRes) dir safe (d : Disk) p,
      (dtwCascade extDl dir safe d).1 = .ok p →
      ∃ f, ((dtwCascade extDl dir safe d).2).lookup p = some f ∧ 0 < f.size) ∧
    (∀ (extDl : String → DlRes) dir safe ext (d : Disk),
      extDl ext = .writes 0 →
      (dtwAttempt extDl dir safe ext d).2 = none ∧
      ((dtwAttempt extDl dir safe ext d).1).lookup (pjoin dir (safe ++ ext)) =
        some ⟨pjoin dir (safe ++ ext), 0, d.clock⟩) := by
  refine ⟨?_, ?_, ?_, ?_⟩
  · intro extDl temp_dir safe ext d h
    constructor
    · simp [mwAttempt, h]
    · have e : (mwAttempt extDl temp_dir safe ext d).1 =
          (d.write (pjoin temp_dir (safe ++ ext))
            0).remove (pjoin temp_dir (safe ++ ext)) := by
        simp [mwAttempt, h]
      rw [e, Disk.lookup_remove_self]
  · intro extDl temp_dir safe d p h
    exact mwCascade_accept_size extDl temp_dir safe d p h
  · intro extDl dir safe d p h
    exact dtwCascade_accept_size extDl dir safe d p h
  · intro extDl dir safe ext d h
    constructor
    · simp [dtwAttempt, h]
    · have e : (dtwAttempt extDl dir safe ext d).1 =
          d.write (pjoin dir (safe ++ ext)) 0 := by
        simp [dtwAttempt, h]
      rw [e, Disk.lookup_write_self]

/-- Witness for the amended C2: the migrate_workbook attempt deletes a
concrete empty file, while download_tableau_workbook's attempt leaves it. -/
theorem empty_download_discard_behavior_witness :
    ((mwAttempt (fun _ => .writes 0) "t" "wb" ".twbx" ⟨[], 0⟩).1).lookup
      (pjoin "t" ("wb" ++ ".twbx")) = none ∧
    ((dtwAttempt (fun _ => .writes 0) "d" "wb" ".twbx" ⟨[], 0⟩).1).lookup
      (pjoin "d" ("wb" ++ ".twbx")) =
        some ⟨pjoin "d" ("wb" ++ ".twbx"), 0, 0⟩ := by
  constructor
  · exact (empty_download_discard_behavior.1 (fun _ => .writes 0) "t" "wb"
      ".twbx" ⟨[], 0⟩ rfl).2
  · exact (empty_download_discard_behavior.2.2.2 (fun _ => .writes 0) "d" "wb"
      ".twbx" ⟨[], 0⟩ rfl).2

/-! ## migrate_workbook publish and cleanup lemmas -/

theorem publishWithRetry_ok (pub : PublishMode → Except String Unit)
    (h : pub .Overwrite = .ok ()) :
    publishWithRetry pub = ([.Overwrite], .ok ()) := by
  simp [publishWithRetry, h]

theorem publishWithRetry_retry_ok (pub : PublishMode → Except String Unit)
    (e : String) (h1 : pub .Overwrite = .error e) (h2 : pub .CreateNew = .ok ()) :
    publishWithRetry pub = ([.Overwrite, .CreateNew], .ok ()) := by
  simp [publishWithRetry, h1, h2]

theorem publishWithRetry_retry_fails (pub : PublishMode → Except String Unit)
    (e eCN : String) (h1 : pub .Overwrite = .error e)
    (h2 : pub .CreateNew = .error eCN) :
    publishWithRetry pub = ([.Overwrite, .CreateNew], .error eCN) := by
  simp [publishWithRetry, h1, h2]

theorem migrate_workbook_downloaded_eq (wb : WorkbookItem)
    (extDl : String → DlRes) (alt : AltRes)
    (pub : PublishMode → Except String Unit)
    (workbook_id temp_dir : String) (flag : Bool) (d : Disk)
    (hdl : (mwDownload extDl alt temp_dir
      (sanitizeFilename ("workbook_" ++ workbook_id)) d).downloaded = true) :
    migrate_workbook (some wb) extDl alt pub workbook_id temp_dir flag d =
      ((publishWithRetry pub).2,
       mwCleanup
         (mwDownload extDl alt temp_dir
           (sanitizeFilename ("workbook_" ++ workbook_id)) d).disk
         (mwDownload extDl alt temp_dir
           (sanitizeFilename ("workbook_" ++ workbook_id)) d).workbook_file flag,
       (publishWithRetry pub).1) := by
  simp [migrate_workbook, hdl]

/-- C5: in migrate_workbook, after a successful download, publish is first
attempted with Overwrite; exactly when that attempt raises, a single retry
with CreateNew is made; if the retry also raises, its error propagates out
of migrate_workbook and no further publish is attempted. -/
theorem migrate_workbook_publish_retry (wb : WorkbookItem)
    (extDl : String → DlRes) (alt : AltRes)
    (pub : PublishMode → Except String Unit)
    (workbook_id temp_dir : String) (flag : Bool) (d : Disk)
    (hdl : (mwDownload extDl alt temp_dir
      (sanitizeFilename ("workbook_" ++ workbook_id)) d).downloaded = true) :
    let r := migrate_workbook (some wb) extDl alt pub workbook_id temp_dir flag d
    r.2.2 = (publishWithRetry pub).1 ∧
    ((publishWithRetry pub).1).head? = some .Overwrite ∧
    (pub .Overwrite = .ok () → r.2.2 = [.Overwrite] ∧ r.1 = .ok ()) ∧
    (∀ e, pub .Overwrite = .error e → pub .CreateNew = .ok () →
      r.2.2 = [.Overwrite, .CreateNew] ∧ r.1 = .ok ()) ∧
    (∀ e eCN, pub .Overwrite = .error e → pub .CreateNew = .error eCN →
      r.2.2 = [.Overwrite, .CreateNew] ∧ r.1 = .error eCN) := by
  intro r
  have hr := migrate_workbook_downloaded_eq wb extDl alt pub workbook_id
    temp_dir flag d hdl
  have hr22 : r.2.2 = (publishWithRetry pub).1 := by rw [show r = _ from hr]
  have hr1 : r.1 = (publishWithRetry pub).2 := by rw [show r = _ from hr]
  refine ⟨hr22, ?_, ?_, ?_, ?_⟩
  · cases ho : pub .Overwrite with
    | ok u => cases u; rw [publishWithRetry_ok pub ho]; rfl
    | error e =>
      cases hc : pub .CreateNew with
      | ok u => cases u; rw [publishWithRetry_retry_ok pub e ho hc]; rfl
      | error eCN => rw [publishWithRetry_retry_fails pub e eCN ho hc]; rfl
  · intro ho
    rw [hr22, hr1, publishWithRetry_ok pub ho]
    exact ⟨rfl, rfl⟩
  · intro e ho hc
    rw [hr22, hr1, publishWithRetry_retry_ok pub e ho hc]
    exact ⟨rfl, rfl⟩
  · intro e eCN ho hc
    rw [hr22, hr1, publishWithRetry_retry_fails pub e eCN ho hc]
    exact ⟨rfl, rfl⟩

/-- Witness for C5: with a download that succeeds as .twbx, both publish
modes failing makes migrate_workbook propagate the retry error after
attempting exactly Overwrite then CreateNew. -/
theorem migrate_workbook_publish_retry_witness :
    ((migrate_workbook (some ⟨"W1", "Sales", "p"⟩)
        (fun e => if e = ".twbx" then .writes 5 else .raises "x")
        (.raises "no")
        (fun m => if m = .Overwrite then .error "E1" else .error "E2")
        "W1" "t" true ⟨[], 0⟩).2.2 = [.Overwrite, .CreateNew]) ∧
    ((migrate_workbook (some ⟨"W1", "Sales", "p"⟩)
        (fun e => if e = ".twbx" then .writes 5 else .raises "x")
        (.raises "no")
        (fun m => if m = .Overwrite then .error "E1" else .error "E2")
        "W1" "t" true ⟨[], 0⟩).1 = .error "E2") := by
  have h := migrate_workbook_publish_retry ⟨"W1", "Sales", "p"⟩
    (fun e => if e = ".twbx" then .writes 5 else .raises "x")
    (.raises "no")
    (fun m => if m = .Overwrite then .error "E1" else .error "E2")
    "W1" "t" true ⟨[], 0⟩ (by decide)
  exact h.2.2.2.2 "E1" "E2" rfl rfl

/-! ## Frame lemmas for migrate_workbook's effect on the disk -/

theorem isUnder_pjoin (dir s : String) : isUnder dir (pjoin dir s) := ⟨s, rfl⟩

theorem mwAttempt_frame (extDl : String → DlRes) (temp_dir safe ext : String)
    (d : Disk) (q : String) (hq : ¬ q = pjoin temp_dir (safe ++ ext)) :
    ((mwAttempt extDl temp_dir safe ext d).1).lookup q = d.lookup q := by
  cases hx : extDl ext with
  | raises m => simp [mwAttempt, hx]
  | noop =>
    cases hl : d.lookup (pjoin temp_dir (safe ++ ext)) with
    | none => simp [mwAttempt, hx, hl]
    | some f =>
      by_cases hs : f.size > 0
      · simp [mwAttempt, hx, hl, hs]
      · have e : (mwAttempt extDl temp_dir safe ext d).1 =
            d.remove (pjoin temp_dir (safe ++ ext)) := by
          simp [mwAttempt, hx, hl, hs]
        rw [e, Disk.lookup_remove_ne _ _ _ hq]
  | writes n =>
    by_cases hs : n > 0
    · have e : (mwAttempt extDl temp_dir safe ext d).1 =
          d.write (pjoin temp_dir (safe ++ ext)) n := by
        simp [mwAttempt, hx, hs]
      rw [e, Disk.lookup_write_ne _ _ _ _ hq]
    · have e : (mwAttempt extDl temp_dir safe ext d).1 =
          (d.write (pjoin temp_dir (safe ++ ext)) n).remove
            (pjoin temp_dir (safe ++ ext)) := by
        simp [mwAttempt, hx, hs]
      rw [e, Disk.lookup_remove_ne _ _ _ hq, Disk.lookup_write_ne _ _ _ _ hq]

theorem mwAttempt_some_path (extDl : String → DlRes) (temp_dir safe ext : String)
    (d : Disk) (p : String) (h : (mwAttempt extDl temp_dir safe ext d).2 = some p) :
    p = pjoin temp_dir (safe ++ ext) := by
  cases hx : extDl ext with
  | raises m => simp [mwAttempt, hx] at h
  | noop =>
    cases hl : d.lookup (pjoin temp_dir (safe ++ ext)) with
    | none => simp [mwAttempt, hx, hl] at h
    | some f =>
      by_cases hs : f.size > 0
      · have e : (mwAttempt extDl temp_dir safe ext d).2 =
            some (pjoin temp_dir (safe ++ ext)) := by
          simp [mwAttempt, hx, hl, hs]
        rw [e] at h
        simpa using h.symm
      · have e : (mwAttempt extDl temp_dir safe ext d).2 = none := by
          simp [mwAttempt, hx, hl, hs]
        rw [e] at h
        simp at h
  | writes n =>
    by_cases hs : n > 0
    · have e : (mwAttempt extDl temp_dir safe ext d).2 =
          some (pjoin temp_dir (safe ++ ext)) := by
        simp [mwAttempt, hx, hs]
      rw [e] at h
      simpa using h.symm
    · have e : (mwAttempt extDl temp_dir safe ext d).2 = none := by
        simp [mwAttempt, hx, hs]
      rw [e] at h
      simp at h

theorem mwCascade_frame (extDl : String → DlRes) (temp_dir safe : String)
    (d : Disk) (q : String) (hq : ¬ isUnder temp_dir q) :
    ((mwCascade extDl temp_dir safe d).1).lookup q = d.lookup q := by
  have hq1 : ¬ q = pjoin temp_dir (safe ++ ".twbx") := by
    intro h; exact hq (h ▸ isUnder_pjoin temp_dir (safe ++ ".twbx"))
  have hq2 : ¬ q = pjoin temp_dir (safe ++ ".twb") := by
    intro h; exact hq (h ▸ isUnder_pjoin temp_dir (safe ++ ".twb"))
  cases h1 : (mwAttempt extDl temp_dir safe ".twbx" d).2 with
  | some p =>
    have e : (mwCascade extDl temp_dir safe d).1 =
        (mwAttempt extDl temp_dir safe ".twbx" d).1 := by
      simp [mwCascade, h1]
    rw [e, mwAttempt_frame extDl temp_dir safe ".twbx" d q hq1]
  | none =>
    have e : (mwCascade extDl temp_dir safe d).1 =
        (mwAttempt extDl temp_dir safe ".twb"
          ((mwAttempt extDl temp_dir safe ".twbx" d).1)).1 := by
      simp [mwCascade, h1]
    rw [e, mwAttempt_frame extDl temp_dir safe ".twb" _ q hq2,
      mwAttempt_frame extDl temp_dir safe ".twbx" d q hq1]

theorem foldl_write_frame (temp_dir : String) (ws : List (String × Nat)) :
    ∀ (d : Disk) (q : String), ¬ isUnder temp_dir q →
      (ws.foldl (fun dd nm => dd.write (pjoin temp_dir nm.1) nm.2) d).lookup q =
        d.lookup q := by
  induction ws with
  | nil => intro d q _; rfl
  | cons w rest ih =>
    intro d q hq
    have hne : ¬ q = pjoin temp_dir w.1 := by
      intro h; exact hq (h ▸ isUnder_pjoin temp_dir w.1)
    calc (List.foldl (fun dd nm => dd.write (pjoin temp_dir nm.1) nm.2)
          (d.write (pjoin temp_dir w.1) w.2) rest).lookup q
        = (d.write (pjoin temp_dir w.1) w.2).lookup q := ih _ q hq
      _ = d.lookup q := Disk.lookup_write_ne _ _ _ _ hne

theorem mwAltPhase_frame (alt : AltRes) (temp_dir : String) (d : Disk)
    (halt : ∀ p w, alt = .pathRet p w → isUnder temp_dir p)
    (q : String) (hq : ¬ isUnder temp_dir q) :
    ((mwAltPhase alt temp_dir d).disk).lookup q = d.lookup q := by
  cases alt with
  | raises m => rfl
  | pathRet p w =>
    have hp : isUnder temp_dir p := halt p w rfl
    have hne : ¬ q = p := fun h => hq (h ▸ hp)
    cases w with
    | none =>
      cases hl : d.lookup p with
      | some f => simp [mwAltPhase, hl]
      | none => simp [mwAltPhase, hl]
    | some n =>
      have hw : ((d.write p n).lookup q) = d.lookup q :=
        Disk.lookup_write_ne _ _ _ _ hne
      cases hl : (d.write p n).lookup p with
      | some f => simp [mwAltPhase, hl, hw]
      | none => simp [mwAltPhase, hl, hw]
  | noneRet ws =>
    have hfold := foldl_write_frame temp_dir ws d q hq
    simp only [mwAltPhase]
    cases hp : (((ws.foldl (fun dd nm => dd.write (pjoin temp_dir nm.1) nm.2)
        d).listdir temp_dir).filter
        (fun f => strEndsWith f ".twb" || strEndsWith f ".twbx")) with
    | nil => simpa using hfold
    | cons f fs =>
      cases hl : (ws.foldl (fun dd nm => dd.write (pjoin temp_dir nm.1) nm.2)
          d).lookup (pjoin temp_dir (maxByKey (fun nm =>
            (ws.foldl (fun dd nm => dd.write (pjoin temp_dir nm.1) nm.2)
              d).ctimeOf (pjoin temp_dir nm)) f fs)) with
      | some g => simp only [hp, hl]; simpa using hfold
      | none => simp only [hp, hl]; simpa using hfold

theorem mwDownload_frame (extDl : String → DlRes) (alt : AltRes)
    (temp_dir safe : String) (d : Disk)
    (halt : ∀ p w, alt = .pathRet p w → isUnder temp_dir p)
    (q : String) (hq : ¬ isUnder temp_dir q) :
    ((mwDownload extDl alt temp_dir safe d).disk).lookup q = d.lookup q := by
  cases hc : (mwCascade extDl temp_dir safe d).2 with
  | some p =>
    have e : (mwDownload extDl alt temp_dir safe d).disk =
        (mwCascade extDl temp_dir safe d).1 := by
      simp [mwDownload, hc]
    rw [e, mwCascade_frame extDl temp_dir safe d q hq]
  | none =>
    have e : mwDownload extDl alt temp_dir safe d =
        mwAltPhase alt temp_dir (mwCascade extDl temp_dir safe d).1 := by
      simp [mwDownload, hc]
    rw [e, mwAltPhase_frame alt temp_dir _ halt q hq,
      mwCascade_frame extDl temp_dir safe d q hq]

theorem mwAltPhase_wf_under (alt : AltRes) (temp_dir : String) (d : Disk)
    (halt : ∀ p w, alt = .pathRet p w → isUnder temp_dir p) :
    ∀ wf, (mwAltPhase alt temp_dir d).workbook_file = some wf →
      isUnder temp_dir wf := by
  intro wf hwf
  cases alt with
  | raises m =>
    have : wf = pjoin temp_dir "workbook.twbx" := by
      simpa [mwAltPhase] using hwf.symm
    exact this ▸ isUnder_pjoin temp_dir "workbook.twbx"
  | pathRet p w =>
    have hp : isUnder temp_dir p := halt p w rfl
    cases w with
    | none =>
      cases hl : d.lookup p with
      | some f =>
        have : wf = p := by simpa [mwAltPhase, hl] using hwf.symm
        exact this ▸ hp
      | none =>
        have : wf = pjoin temp_dir "workbook.twbx" := by
          simpa [mwAltPhase, hl] using hwf.symm
        exact this ▸ isUnder_pjoin temp_dir "workbook.twbx"
    | some n =>
      cases hl : (d.write p n).lookup p with
      | some f =>
        have : wf = p := by simpa [mwAltPhase, hl] using hwf.symm
        exact this ▸ hp
      | none =>
        have : wf = pjoin temp_dir "workbook.twbx" := by
          simpa [mwAltPhase, hl] using hwf.symm
        exact this ▸ isUnder_pjoin temp_dir "workbook.twbx"
  | noneRet ws =>
    simp only [mwAltPhase] at hwf
    cases hp : (((ws.foldl (fun dd nm => dd.write (pjoin temp_dir nm.1) nm.2)
        d).listdir temp_dir).filter
        (fun f => strEndsWith f ".twb" || strEndsWith f ".twbx")) with
    | nil =>
      simp only [hp] at hwf
      have : wf = pjoin temp_dir "workbook.twbx" := by simpa using hwf.symm
      exact this ▸ isUnder_pjoin temp_dir "workbook.twbx"
    | cons f fs =>
      cases hl : (ws.foldl (fun dd nm => dd.write (pjoin temp_dir nm.1) nm.2)
          d).lookup (pjoin temp_dir (maxByKey (fun nm =>
            (ws.foldl (fun dd nm => dd.write (pjoin temp_dir nm.1) nm.2)
              d).ctimeOf (pjoin temp_dir nm)) f fs)) with
      | some g =>
        simp only [hp, hl] at hwf
        have : wf = pjoin temp_dir (maxByKey (fun nm =>
            (ws.foldl (fun dd nm => dd.write (pjoin temp_dir nm.1) nm.2)
              d).ctimeOf (pjoin temp_dir nm)) f fs) := by
          simpa using hwf.symm
        exact this ▸ isUnder_pjoin temp_dir _
      | none =>
        simp only [hp, hl] at hwf
        have : wf = pjoin temp_dir (maxByKey (fun nm =>
            (ws.foldl (fun dd nm => dd.write (pjoin temp_dir nm.1) nm.2)
              d).ctimeOf (pjoin temp_dir nm)) f fs) := by
          simpa using hwf.symm
        exact this ▸ isUnder_pjoin temp_dir _

theorem mwCascade_some_path (extDl : String → DlRes) (temp_dir safe : String)
    (d : Disk) (p : String) (h : (mwCascade extDl temp_dir safe d).2 = some p) :
    ∃ ext, p = pjoin temp_dir (safe ++ ext) := by
  cases h1 : (mwAttempt extDl temp_dir safe ".twbx" d).2 with
  | some q =>
    have e : (mwCascade extDl temp_dir safe d).2 = some q := by
      simp [mwCascade, h1]
    rw [e] at h
    have hq : q = p := by simpa using h
    exact ⟨".twbx", by
      rw [← hq, mwAttempt_some_path extDl temp_dir safe ".twbx" d q h1]⟩
  | none =>
    have e : (mwCascade extDl temp_dir safe d).2 =
        (mwAttempt extDl temp_dir safe ".twb"
          ((mwAttempt extDl temp_dir safe ".twbx" d).1)).2 := by
      simp [mwCascade, h1]
    rw [e] at h
    exact ⟨".twb", mwAttempt_some_path extDl temp_dir safe ".twb" _ p h⟩

theorem mwDownload_wf_under (extDl : String → DlRes) (alt : AltRes)
    (temp_dir safe : String) (d : Disk)
    (halt : ∀ p w, alt = .pathRet p w → isUnder temp_dir p) :
    ∀ wf, (mwDownload extDl alt temp_dir safe d).workbook_file = some wf →
      isUnder temp_dir wf := by
  intro wf hwf
  cases hc : (mwCascade extDl temp_dir safe d).2 with
  | some p =>
    have e : (mwDownload extDl alt temp_dir safe d).workbook_file = some p := by
      simp [mwDownload, hc]
    rw [e] at hwf
    have hp := mwCascade_some_path extDl temp_dir safe d p hc
    have : wf = p := by simpa using hwf.symm
    rcases hp with ⟨ext, hext⟩
    exact this ▸ hext ▸ isUnder_pjoin temp_dir (safe ++ ext)
  | none =>
    have e : mwDownload extDl alt temp_dir safe d =
        mwAltPhase alt temp_dir (mwCascade extDl temp_dir safe d).1 := by
      simp [mwDownload, hc]
    rw [e] at hwf
    exact mwAltPhase_wf_under alt temp_dir _ halt wf hwf

theorem mwAltPhase_downloaded_isSome (alt : AltRes) (temp_dir : String)
    (d : Disk) (hdl : (mwAltPhase alt temp_dir d).downloaded = true) :
    ∃ wf f, (mwAltPhase alt temp_dir d).workbook_file = some wf ∧
      ((mwAltPhase alt temp_dir d).disk).lookup wf = some f := by
  cases alt with
  | raises m => simp [mwAltPhase] at hdl
  | pathRet p w =>
    cases w with
    | none =>
      cases hl : d.lookup p with
      | some g =>
        have e : mwAltPhase (.pathRet p none) temp_dir d = ⟨d, some p, true⟩ := by
          simp [mwAltPhase, hl]
        rw [e]
        exact ⟨p, g, rfl, hl⟩
      | none =>
        have e : (mwAltPhase (.pathRet p none) temp_dir d).downloaded = false := by
          simp [mwAltPhase, hl]
        rw [hdl] at e
        exact absurd e (by simp)
    | some n =>
      cases hl : (d.write p n).lookup p with
      | some g =>
        have e : mwAltPhase (.pathRet p (some n)) temp_dir d =
            ⟨d.write p n, some p, true⟩ := by
          simp [mwAltPhase, hl]
        rw [e]
        exact ⟨p, g, rfl, hl⟩
      | none =>
        have e : (mwAltPhase (.pathRet p (some n)) temp_dir d).downloaded = false := by
          simp [mwAltPhase, hl]
        rw [hdl] at e
        exact absurd e (by simp)
  | noneRet ws =>
    cases hp : (((ws.foldl (fun dd nm => dd.write (pjoin temp_dir nm.1) nm.2)
        d).listdir temp_dir).filter
        (fun f => strEndsWith f ".twb" || strEndsWith f ".twbx")) with
    | nil =>
      have e : (mwAltPhase (.noneRet ws) temp_dir d).downloaded = false := by
        simp [mwAltPhase, hp]
      rw [hdl] at e
      exact absurd e (by simp)
    | cons f fs =>
      cases hl : (ws.foldl (fun dd nm => dd.write (pjoin temp_dir nm.1) nm.2)
          d).lookup (pjoin temp_dir (maxByKey (fun nm =>
            (ws.foldl (fun dd nm => dd.write (pjoin temp_dir nm.1) nm.2)
              d).ctimeOf (pjoin temp_dir nm)) f fs)) with
      | some g =>
        have e : mwAltPhase (.noneRet ws) temp_dir d =
            ⟨ws.foldl (fun dd nm => dd.write (pjoin temp_dir nm.1) nm.2) d,
             some (pjoin temp_dir (maxByKey (fun nm =>
               (ws.foldl (fun dd nm => dd.write (pjoin temp_dir nm.1) nm.2)
                 d).ctimeOf (pjoin temp_dir nm)) f fs)), true⟩ := by
          simp [mwAltPhase, hp, hl]
        rw [e]
        exact ⟨_, g, rfl, hl⟩
      | none =>
        have e : (mwAltPhase (.noneRet ws) temp_dir d).downloaded = false := by
          simp [mwAltPhase, hp, hl]
        rw [hdl] at e
        exact absurd e (by simp)

theorem mwDownload_downloaded_isSome (extDl : String → DlRes) (alt : AltRes)
    (temp_dir safe : String) (d : Disk)
    (hdl : (mwDownload extDl alt temp_dir safe d).downloaded = true) :
    ∃ wf f, (mwDownload extDl alt temp_dir safe d).workbook_file = some wf ∧
      ((mwDownload extDl alt temp_dir safe d).disk).lookup wf = some f := by
  cases hc : (mwCascade extDl temp_dir safe d).2 with
  | some p =>
    have e := mwDownload_cascade_some extDl alt temp_dir safe d p hc
    rw [e]
    obtain ⟨f, hf, -⟩ := mwCascade_accept_size extDl temp_dir safe d p hc
    exact ⟨p, f, rfl, hf⟩
  | none =>
    have e : mwDownload extDl alt temp_dir safe d =
        mwAltPhase alt temp_dir (mwCascade extDl temp_dir safe d).1 := by
      simp [mwDownload, hc]
    rw [e] at hdl ⊢
    exact mwAltPhase_downloaded_isSome alt temp_dir _ hdl

/-- C8: for an invocation of migrate_workbook with a successful download,
the downloaded workbook file is removed by the cleanup step exactly when
the temp directory is auto-managed (no user-supplied download_dir, i.e.
should_delete_temp_dir); with a user-supplied directory the file is left in
place; and every path outside the temp directory is untouched by the whole
migration. -/
theorem migrate_workbook_cleanup_iff_auto (wb : WorkbookItem)
    (extDl : String → DlRes) (alt : AltRes)
    (pub : PublishMode → Except String Unit)
    (workbook_id temp_dir : String) (flag : Bool) (d : Disk)
    (halt : ∀ p w, alt = .pathRet p w → isUnder temp_dir p)
    (hdl : (mwDownload extDl alt temp_dir
      (sanitizeFilename ("workbook_" ++ workbook_id)) d).downloaded = true) :
    let ph := mwDownload extDl alt temp_dir
      (sanitizeFilename ("workbook_" ++ workbook_id)) d
    let r := migrate_workbook (some wb) extDl alt pub workbook_id temp_dir flag d
    (∀ wf, ph.workbook_file = some wf →
      (flag = true → (r.2.1).lookup wf = none) ∧
      (flag = false → (r.2.1).lookup wf = ph.disk.lookup wf ∧
        (ph.disk.lookup wf).isSome)) ∧
    (∀ q, ¬ isUnder temp_dir q → (r.2.1).lookup q = d.lookup q) := by
  intro ph r
  have hr := migrate_workbook_downloaded_eq wb extDl alt pub workbook_id
    temp_dir flag d hdl
  have hr21 : r.2.1 = mwCleanup ph.disk ph.workbook_file flag := by
    rw [show r = _ from hr]
  constructor
  · intro wf hwf
    obtain ⟨wf2, f, hwf2, hlk⟩ := mwDownload_downloaded_isSome extDl alt
      temp_dir (sanitizeFilename ("workbook_" ++ workbook_id)) d hdl
    have hwfeq : wf2 = wf := by
      rw [show ph.workbook_file = some wf2 from hwf2] at hwf
      simpa using hwf
    subst hwfeq
    have hsome : (ph.disk.lookup wf2).isSome := by rw [hlk]; rfl
    constructor
    · intro hflag
      subst hflag
      have e : mwCleanup ph.disk (some wf2) true = ph.disk.remove wf2 := by
        simp [mwCleanup, hsome]
      rw [hr21, hwf, e, Disk.lookup_remove_self]
    · intro hflag
      subst hflag
      have e : mwCleanup ph.disk (some wf2) false = ph.disk := by
        simp [mwCleanup]
      rw [hr21, hwf, e]
      exact ⟨rfl, hsome⟩
  · intro q hq
    have hframe : (ph.disk).lookup q = d.lookup q :=
      mwDownload_frame extDl alt temp_dir _ d halt q hq
    rw [hr21]
    cases hwf : ph.workbook_file with
    | none => exact hframe
    | some wf =>
      have hu := mwDownload_wf_under extDl alt temp_dir _ d halt wf hwf
      have hneq : ¬ q = wf := fun h => hq (h ▸ hu)
      by_cases hcond : ((ph.disk.lookup wf).isSome ∧ flag = true)
      · have e : mwCleanup ph.disk (some wf) flag = ph.disk.remove wf := by
          simp [mwCleanup, hcond.1, hcond.2]
        rw [e, Disk.lookup_remove_ne _ _ _ hneq]
        exact hframe
      · have e : mwCleanup ph.disk (some wf) flag = ph.disk := by
          simp only [mwCleanup]
          rw [if_neg]
          intro hc
          exact hcond ⟨hc.1, hc.2⟩
        rw [e]
        exact hframe

theorem not_isUnder_t_other : ¬ isUnder "t" "other" := by
  rintro ⟨s, hs⟩
  have hpj : pjoin "t" s = "t" ++ "/" ++ s := by
    unfold pjoin
    rw [if_neg (by decide), if_neg (by decide)]
  rw [hpj] at hs
  have hd := congrArg String.data hs
  rw [show ("t" ++ "/" ++ s).data = 't' :: '/' :: s.data from rfl] at hd
  rw [show ("other" : String).data = ['o', 't', 'h', 'e', 'r'] from rfl] at hd
  injection hd with h1 _
  exact absurd h1 (by decide)

/-- Witness for C8: with an auto-managed temp directory the downloaded file
is gone afterwards, and an unrelated path outside the temp directory is
untouched. -/
theorem migrate_workbook_cleanup_iff_auto_witness :
    ((migrate_workbook (some ⟨"W1", "Sales", "p"⟩)
        (fun e => if e = ".twbx" then .writes 5 else .raises "x")
        (.raises "no") (fun _ => .ok ()) "W1" "t" true ⟨[], 0⟩).2.1).lookup
      (pjoin "t" (sanitizeFilename ("workbook_" ++ "W1") ++ ".twbx")) = none ∧
    ((migrate_workbook (some ⟨"W1", "Sales", "p"⟩)
        (fun e => if e = ".twbx" then .writes 5 else .raises "x")
        (.raises "no") (fun _ => .ok ()) "W1" "t" true ⟨[], 0⟩).2.1).lookup
      "other" = Disk.lookup ⟨[], 0⟩ "other" := by
  have h := migrate_workbook_cleanup_iff_auto ⟨"W1", "Sales", "p"⟩
    (fun e => if e = ".twbx" then .writes 5 else .raises "x")
    (.raises "no") (fun _ => .ok ()) "W1" "t" true ⟨[], 0⟩
    (fun p w hpw => by cases hpw) (by decide)
  exact ⟨(h.1 (pjoin "t" (sanitizeFilename ("workbook_" ++ "W1") ++ ".twbx"))
      (by decide)).1 rfl,
    h.2 "other" not_isUnder_t_other⟩

/-! ## Site hierarchy replication lemmas -/

/-- State extension: the project map keeps every existing binding (with the
same value) and the log keeps every recorded call. -/
def ExtSt (st st2 : SiteSt) : Prop :=
  (∀ k v, pmFind st.pm k = some v → pmFind st2.pm k = some v) ∧
  (∀ x, x ∈ st.log → x ∈ st2.log)

theorem ExtSt.refl_self (st : SiteSt) : ExtSt st st :=
  ⟨fun _ _ h => h, fun _ h => h⟩

theorem ExtSt.trans2 {a b c : SiteSt} (h1 : ExtSt a b) (h2 : ExtSt b c) :
    ExtSt a c :=
  ⟨fun k v h => h2.1 k v (h1.1 k v h), fun x h => h2.2 x (h1.2 x h)⟩

theorem pmFind_cons (pm : List (String × String)) (k v i : String) :
    pmFind ((k, v) :: pm) i = if i = k then some v else pmFind pm i := rfl

theorem ensureCall_ext (ensure : String → Option String → String) (st : SiteSt)
    (p : ProjectItem) (parent : Option String)
    (hfresh : pmFind st.pm p.id = none) :
    ExtSt st (ensureCall ensure st p parent) := by
  constructor
  · intro k v h
    show pmFind ((p.id, ensure p.name parent) :: st.pm) k = some v
    rw [pmFind_cons, if_neg]
    · exact h
    · intro hk
      rw [hk, hfresh] at h
      exact absurd h (by simp)
  · intro x hx
    exact List.mem_append_left _ hx

theorem ensureCall_self (ensure : String → Option String → String) (st : SiteSt)
    (p : ProjectItem) (parent : Option String) :
    pmFind (ensureCall ensure st p parent).pm p.id = some (ensure p.name parent) ∧
    (p.name, parent, ensure p.name parent) ∈ (ensureCall ensure st p parent).log := by
  constructor
  · show pmFind ((p.id, ensure p.name parent) :: st.pm) p.id = _
    rw [pmFind_cons, if_pos rfl]
  · exact List.mem_append_right _ (by simp)

theorem ensureCall_frame (ensure : String → Option String → String) (st : SiteSt)
    (p : ProjectItem) (parent : Option String) (k : String) (hk : ¬ k = p.id) :
    pmFind (ensureCall ensure st p parent).pm k = pmFind st.pm k := by
  show pmFind ((p.id, ensure p.name parent) :: st.pm) k = _
  rw [pmFind_cons, if_neg hk]

/-- A source project has been replicated in state `st`: its id is mapped to
a target id `t`, and the log records that it was created top-level (parent
None) or under the target id its source parent is mapped to. -/
def DoneP (st : SiteSt) (p : ProjectItem) : Prop :=
  ∃ t, pmFind st.pm p.id = some t ∧
    (p.parent_id = none → (p.name, none, t) ∈ st.log) ∧
    (∀ i, p.parent_id = some i →
      ∃ tq, pmFind st.pm i = some tq ∧ (p.name, some tq, t) ∈ st.log)

theorem DoneP_mono {st st2 : SiteSt} {p : ProjectItem} (h : DoneP st p)
    (he : ExtSt st st2) : DoneP st2 p := by
  obtain ⟨t, h1, h2, h3⟩ := h
  refine ⟨t, he.1 _ _ h1, fun hn => he.2 _ (h2 hn), fun i hi => ?_⟩
  obtain ⟨tq, hq1, hq2⟩ := h3 i hi
  exact ⟨tq, he.1 _ _ hq1, he.2 _ hq2⟩

theorem list_exists_min {α : Type} (f : α → Nat) :
    ∀ (l : List α), ¬ l = [] → ∃ a ∈ l, ∀ b ∈ l, f a ≤ f b := by
  intro l
  induction l with
  | nil => intro h; exact absurd rfl h
  | cons x rest ih =>
    intro _
    by_cases hr : rest = []
    · subst hr
      exact ⟨x, by simp, by simp⟩
    · obtain ⟨a, ha, hmin⟩ := ih hr
      by_cases hx : f x ≤ f a
      · refine ⟨x, by simp, fun b hb => ?_⟩
        rcases List.mem_cons.mp hb with hb | hb
        · rw [hb]
        · exact le_trans hx (hmin b hb)
      · refine ⟨a, List.mem_cons_of_mem _ ha, fun b hb => ?_⟩
        rcases List.mem_cons.mp hb with hb | hb
        · rw [hb]; omega
        · exact hmin b hb

theorem firstPass_spec (ensure : String → Option String → String) :
    ∀ (l : List ProjectItem) (st : SiteSt),
      (l.map (fun p => p.id)).Nodup →
      (∀ p ∈ l, pmFind st.pm p.id = none) →
      (∀ p ∈ l, isTop p = true → p.parent_id = none) →
      ExtSt st (firstPass ensure l st) ∧
      (∀ k, (∀ p ∈ l, ¬ k = p.id) →
        pmFind (firstPass ensure l st).pm k = pmFind st.pm k) ∧
      (∀ p ∈ l, isTop p = true → DoneP (firstPass ensure l st) p) ∧
      (∀ p ∈ l, isTop p = false →
        pmFind (firstPass ensure l st).pm p.id = none) := by
  intro l
  induction l with
  | nil =>
    intro st _ _ _
    exact ⟨ExtSt.refl_self st, fun k _ => rfl, by simp, by simp⟩
  | cons p rest ih =>
    intro st hnd hfresh htop
    have hnd2 : (∀ x ∈ rest, ¬ x.id = p.id) ∧
        (rest.map (fun q => q.id)).Nodup := by simpa using hnd
    have hndr : (rest.map (fun q => q.id)).Nodup := hnd2.2
    have hidne : ∀ q ∈ rest, ¬ p.id = q.id := by
      intro q hq he
      exact hnd2.1 q hq he.symm
    by_cases hip : isTop p
    · have e : firstPass ensure (p :: rest) st =
          firstPass ensure rest (ensureCall ensure st p none) := by
        simp [firstPass, hip]
      have hfr1 : ∀ q ∈ rest,
          pmFind (ensureCall ensure st p none).pm q.id = none := by
        intro q hq
        rw [ensureCall_frame ensure st p none q.id
          (fun hh => hidne q hq hh.symm)]
        exact hfresh q (List.mem_cons_of_mem _ hq)
      obtain ⟨he, hframe, hdone, hnone⟩ := ih (ensureCall ensure st p none)
        hndr hfr1 (fun q hq => htop q (List.mem_cons_of_mem _ hq))
      have he1 : ExtSt st (ensureCall ensure st p none) :=
        ensureCall_ext ensure st p none (hfresh p (List.mem_cons_self _ _))
      have hdp : DoneP (ensureCall ensure st p none) p := by
        obtain ⟨hself, hlog⟩ := ensureCall_self ensure st p none
        refine ⟨ensure p.name none, hself, fun _ => hlog, fun i hi => ?_⟩
        rw [htop p (List.mem_cons_self _ _) hip] at hi
        exact absurd hi (by simp)
      refine ⟨e ▸ he1.trans2 he, ?_, ?_, ?_⟩
      · intro k hk
        rw [e, hframe k (fun q hq => hk q (List.mem_cons_of_mem _ hq)),
          ensureCall_frame ensure st p none k (hk p (List.mem_cons_self _ _))]
      · intro q hq hqt
        rcases List.mem_cons.mp hq with hq | hq
        · rw [e, hq]
          exact DoneP_mono hdp he
        · rw [e]
          exact hdone q hq hqt
      · intro q hq hqt
        rcases List.mem_cons.mp hq with hq | hq
        · rw [hq] at hqt
          rw [hqt] at hip
          exact absurd hip (by simp)
        · rw [e]
          exact hnone q hq hqt
    · have e : firstPass ensure (p :: rest) st = firstPass ensure rest st := by
        simp [firstPass, hip]
      obtain ⟨he, hframe, hdone, hnone⟩ := ih st hndr
        (fun q hq => hfresh q (List.mem_cons_of_mem _ hq))
        (fun q hq => htop q (List.mem_cons_of_mem _ hq))
      refine ⟨e ▸ he, ?_, ?_, ?_⟩
      · intro k hk
        rw [e, hframe k (fun q hq => hk q (List.mem_cons_of_mem _ hq))]
      · intro q hq hqt
        rcases List.mem_cons.mp hq with hq | hq
        · rw [hq] at hqt
          exact absurd hqt hip
        · rw [e]
          exact hdone q hq hqt
      · intro q hq hqt
        rcases List.mem_cons.mp hq with hq | hq
        · rw [e, hq]
          rw [hframe p.id (fun r hr => hidne r hr)]
          exact hq ▸ hfresh q (hq ▸ List.mem_cons_self _ _)
        · rw [e]
          exact hnone q hq hqt

theorem onePass_spec (ensure : String → Option String → String) :
    ∀ (rem : List ProjectItem) (st : SiteSt),
      (rem.map (fun p => p.id)).Nodup →
      (∀ p ∈ rem, pmFind st.pm p.id = none) →
      ExtSt st (onePass ensure st rem).1 ∧
      (∀ k, (∀ p ∈ rem, ¬ k = p.id) →
        pmFind ((onePass ensure st rem).1).pm k = pmFind st.pm k) ∧
      (∀ p ∈ rem, ¬ p ∈ (onePass ensure st rem).2 →
        pmFind ((onePass ensure st rem).1).pm p.id = none) ∧
      (∀ p ∈ (onePass ensure st rem).2, DoneP (onePass ensure st rem).1 p) ∧
      (∀ p ∈ rem, ∀ i, p.parent_id = some i →
        (pmFind st.pm i).isSome → p ∈ (onePass ensure st rem).2) := by
  intro rem
  induction rem with
  | nil =>
    intro st _ _
    exact ⟨ExtSt.refl_self st, fun k _ => rfl, by simp [onePass],
      by simp [onePass], by simp⟩
  | cons p rest ih =>
    intro st hnd hfresh
    have hnd2 : (∀ x ∈ rest, ¬ x.id = p.id) ∧
        (rest.map (fun q => q.id)).Nodup := by simpa using hnd
    have hndr := hnd2.2
    have hidne : ∀ q ∈ rest, ¬ p.id = q.id := by
      intro q hq he
      exact hnd2.1 q hq he.symm
    have hpm : p ∈ p :: rest := List.mem_cons_self _ _
    cases hp : p.parent_id with
    | none =>
      have e : onePass ensure st (p :: rest) = onePass ensure st rest := by
        simp only [onePass, hp]
      obtain ⟨he, hframe, hunh, hdone, hprog⟩ := ih st hndr
        (fun q hq => hfresh q (List.mem_cons_of_mem _ hq))
      refine ⟨e ▸ he, ?_, ?_, ?_, ?_⟩
      · intro k hk
        rw [e]
        exact hframe k (fun q hq => hk q (List.mem_cons_of_mem _ hq))
      · intro q hq hqh
        rw [e] at hqh ⊢
        rcases List.mem_cons.mp hq with hq | hq
        · rw [hq, hframe p.id hidne]
          exact hfresh p hpm
        · exact hunh q hq hqh
      · intro q hq
        rw [e] at hq ⊢
        exact hdone q hq
      · intro q hq i hi hsome
        rw [e]
        rcases List.mem_cons.mp hq with hq | hq
        · rw [hq, hp] at hi
          exact absurd hi (by simp)
        · exact hprog q hq i hi hsome
    | some pid =>
      cases hf : pmFind st.pm pid with
      | none =>
        have e : onePass ensure st (p :: rest) = onePass ensure st rest := by
          simp only [onePass, hp, hf]
        obtain ⟨he, hframe, hunh, hdone, hprog⟩ := ih st hndr
          (fun q hq => hfresh q (List.mem_cons_of_mem _ hq))
        refine ⟨e ▸ he, ?_, ?_, ?_, ?_⟩
        · intro k hk
          rw [e]
          exact hframe k (fun q hq => hk q (List.mem_cons_of_mem _ hq))
        · intro q hq hqh
          rw [e] at hqh ⊢
          rcases List.mem_cons.mp hq with hq | hq
          · rw [hq, hframe p.id hidne]
            exact hfresh p hpm
          · exact hunh q hq hqh
        · intro q hq
          rw [e] at hq ⊢
          exact hdone q hq
        · intro q hq i hi hsome
          rw [e]
          rcases List.mem_cons.mp hq with hq | hq
          · rw [hq] at hi
            have hipid : i = pid := by
              rw [hp] at hi
              simpa using hi.symm
            rw [hipid, hf] at hsome
            exact absurd hsome (by simp)
          · exact hprog q hq i hi hsome
      | some tpid =>
        have e : onePass ensure st (p :: rest) =
            ((onePass ensure (ensureCall ensure st p (some tpid)) rest).1,
             p :: (onePass ensure (ensureCall ensure st p (some tpid)) rest).2) := by
          simp only [onePass, hp, hf]
        have hpidne : ¬ pid = p.id := by
          intro hh
          rw [hh, hfresh p hpm] at hf
          exact absurd hf (by simp)
        have hfr1 : ∀ q ∈ rest,
            pmFind (ensureCall ensure st p (some tpid)).pm q.id = none := by
          intro q hq
          rw [ensureCall_frame ensure st p (some tpid) q.id
            (fun hh => hidne q hq hh.symm)]
          exact hfresh q (List.mem_cons_of_mem _ hq)
        obtain ⟨he, hframe, hunh, hdone, hprog⟩ :=
          ih (ensureCall ensure st p (some tpid)) hndr hfr1
        have he1 : ExtSt st (ensureCall ensure st p (some tpid)) :=
          ensureCall_ext ensure st p (some tpid) (hfresh p hpm)
        have hdp : DoneP (ensureCall ensure st p (some tpid)) p := by
          obtain ⟨hself, hlog⟩ := ensureCall_self ensure st p (some tpid)
          refine ⟨ensure p.name (some tpid), hself, fun hn => ?_, fun i hi => ?_⟩
          · rw [hp] at hn
            exact absurd hn (by simp)
          · have hipid : i = pid := by
              rw [hp] at hi
              simpa using hi.symm
            refine ⟨tpid, ?_, hlog⟩
            rw [hipid,
              ensureCall_frame ensure st p (some tpid) pid hpidne, hf]
        refine ⟨?_, ?_, ?_, ?_, ?_⟩
        · rw [e]
          exact he1.trans2 he
        · intro k hk
          rw [e]
          show pmFind ((onePass ensure (ensureCall ensure st p (some tpid))
            rest).1).pm k = pmFind st.pm k
          rw [hframe k (fun q hq => hk q (List.mem_cons_of_mem _ hq)),
            ensureCall_frame ensure st p (some tpid) k (hk p hpm)]
        · intro q hq hqh
          rw [e] at hqh ⊢
          have hq2 : ¬ (q = p ∨ q ∈ (onePass ensure
              (ensureCall ensure st p (some tpid)) rest).2) := by
            intro hc
            exact hqh (List.mem_cons.mpr hc)
          push_neg at hq2
          rcases List.mem_cons.mp hq with hq | hq
          · exact absurd hq hq2.1
          · exact hunh q hq hq2.2
        · intro q hq
          rw [e] at hq ⊢
          rcases List.mem_cons.mp hq with hq | hq
          · rw [hq]
            exact DoneP_mono hdp he
          · exact hdone q hq
        · intro q hq i hi hsome
          rw [e]
          rcases List.mem_cons.mp hq with hq | hq
          · rw [hq]
            exact List.mem_cons_self _ _
          · refine List.mem_cons_of_mem _ ?_
            obtain ⟨v, hv⟩ := Option.isSome_iff_exists.mp hsome
            have hv1 : pmFind (ensureCall ensure st p (some tpid)).pm i =
                some v := he1.1 i v hv
            exact hprog q hq i hi (by rw [hv1]; rfl)

theorem childLoop_nil (ensure : String → Option String → String) (st : SiteSt) :
    childLoop ensure st [] = (st, false, 0) := by
  rw [childLoop]
  simp

theorem childLoop_stall (ensure : String → Option String → String) (st : SiteSt)
    (rem : List ProjectItem) (hrem : ¬ rem = [])
    (hh : (onePass ensure st rem).2 = []) :
    childLoop ensure st rem = ((onePass ensure st rem).1, true, 1) := by
  rw [childLoop, dif_neg hrem]
  simp [hh]

theorem childLoop_step (ensure : String → Option String → String) (st : SiteSt)
    (rem : List ProjectItem) (hrem : ¬ rem = [])
    (hh : ¬ (onePass ensure st rem).2 = []) :
    childLoop ensure st rem =
      ((childLoop ensure (onePass ensure st rem).1
          (rem.filter (fun p => decide (¬ p ∈ (onePass ensure st rem).2)))).1,
       (childLoop ensure (onePass ensure st rem).1
          (rem.filter (fun p => decide (¬ p ∈ (onePass ensure st rem).2)))).2.1,
       (childLoop ensure (onePass ensure st rem).1
          (rem.filter (fun p => decide (¬ p ∈ (onePass ensure st rem).2)))).2.2 + 1) := by
  rw [childLoop, dif_neg hrem]
  simp [hh]

theorem childLoop_filter_lt (ensure : String → Option String → String)
    (st : SiteSt) (rem : List ProjectItem)
    (hh : ¬ (onePass ensure st rem).2 = []) :
    (rem.filter (fun p => decide (¬ p ∈ (onePass ensure st rem).2))).length <
      rem.length := by
  refine List.length_filter_lt_length_iff_exists.mpr ?_
  rcases List.exists_mem_of_ne_nil (onePass ensure st rem).2 hh with ⟨q, hq⟩
  exact ⟨q, onePass_handled_mem ensure rem st q hq, by simp [hq]⟩

theorem childLoop_spec (ensure : String → Option String → String)
    (ps : List ProjectItem)
    (hclosed : ∀ p ∈ ps, ∀ i, p.parent_id = some i → ∃ q ∈ ps, q.id = i)
    (rank : ProjectItem → Nat)
    (hrank : ∀ p ∈ ps, ∀ q ∈ ps, p.parent_id = some q.id → rank q < rank p) :
    ∀ (n : Nat) (rem : List ProjectItem) (st : SiteSt), rem.length ≤ n →
      (rem.map (fun p => p.id)).Nodup →
      (∀ p ∈ rem, p ∈ ps) →
      (∀ p ∈ rem, isTop p = false) →
      (∀ p ∈ rem, pmFind st.pm p.id = none) →
      (∀ p ∈ ps, ¬ p ∈ rem → DoneP st p) →
      (childLoop ensure st rem).2.1 = false ∧
      (∀ p ∈ ps, DoneP (childLoop ensure st rem).1 p) := by
  intro n
  induction n with
  | zero =>
    intro rem st hlen _ _ _ _ hcomp
    have hrem : rem = [] := List.eq_nil_of_length_eq_zero (Nat.le_zero.mp hlen)
    subst hrem
    rw [childLoop_nil]
    exact ⟨rfl, fun p hp => hcomp p hp (by simp)⟩
  | succ m ih =>
    intro rem st hlen hnd hsub htopf hfresh hcomp
    by_cases hrem : rem = []
    · subst hrem
      rw [childLoop_nil]
      exact ⟨rfl, fun p hp => hcomp p hp (by simp)⟩
    · obtain ⟨he, hframe, hunh, hdone, hprog⟩ := onePass_spec ensure rem st hnd hfresh
      have hh : ¬ (onePass ensure st rem).2 = [] := by
        obtain ⟨pm0, hpmem, hpmin⟩ := list_exists_min rank rem hrem
        cases hpar : pm0.parent_id with
        | none =>
          exact absurd (htopf pm0 hpmem) (by simp [isTop, hpar])
        | some i =>
          obtain ⟨q, hqps, hqid⟩ := hclosed pm0 (hsub pm0 hpmem) i hpar
          by_cases hqrem : q ∈ rem
          · have h1 : rank q < rank pm0 :=
              hrank pm0 (hsub pm0 hpmem) q hqps (by rw [hpar, hqid])
            have h2 : rank pm0 ≤ rank q := hpmin q hqrem
            omega
          · obtain ⟨tq, htq, -, -⟩ := hcomp q hqps hqrem
            have hsome : (pmFind st.pm i).isSome := by
              rw [← hqid, htq]
              rfl
            exact List.ne_nil_of_mem (hprog pm0 hpmem i hpar hsome)
      have hstep := childLoop_step ensure st rem hrem hh
      have hflt := childLoop_filter_lt ensure st rem hh
      set rem2 := rem.filter (fun p => decide (¬ p ∈ (onePass ensure st rem).2))
        with hrem2
      set st2 := (onePass ensure st rem).1 with hst2
      have hmem2 : ∀ p, p ∈ rem2 ↔
          (p ∈ rem ∧ ¬ p ∈ (onePass ensure st rem).2) := by
        intro p
        rw [hrem2]
        simp [List.mem_filter]
      have hnd3 : (rem2.map (fun p => p.id)).Nodup := by
        rw [hrem2]
        exact hnd.sublist ((List.filter_sublist rem).map (fun p => p.id))
      obtain ⟨hstall2, hdone2⟩ := ih rem2 st2 (by omega) hnd3
        (fun p hp => hsub p ((hmem2 p).mp hp).1)
        (fun p hp => htopf p ((hmem2 p).mp hp).1)
        (fun p hp => hunh p ((hmem2 p).mp hp).1 ((hmem2 p).mp hp).2)
        (by
          intro p hps hp2
          by_cases hpr : p ∈ rem
          · have hph : p ∈ (onePass ensure st rem).2 := by
              by_contra hc
              exact hp2 ((hmem2 p).mpr ⟨hpr, hc⟩)
            exact hdone p hph
          · exact DoneP_mono (hcomp p hps hpr) he)
      rw [hstep]
      exact ⟨hstall2, fun p hp => hdone2 p hp⟩

/-- C3: for a finite forest of source projects (parent-closed, acyclic via a
rank function, with distinct nonempty ids), migrate_site's hierarchy
replication ends unstalled with project_map containing an entry for every
source project, and every child project is created on the target under the
target project mapped from its source parent. -/
theorem migrate_site_hierarchy_replicates
    (ensure : String → Option String → String) (ps : List ProjectItem)
    (hids : (ps.map (fun p => p.id)).Nodup)
    (hne : ∀ q ∈ ps, ¬ q.id = "")
    (hclosed : ∀ p ∈ ps, ∀ i, p.parent_id = some i → ∃ q ∈ ps, q.id = i)
    (rank : ProjectItem → Nat)
    (hrank : ∀ p ∈ ps, ∀ q ∈ ps, p.parent_id = some q.id → rank q < rank p) :
    let r := migrate_site_hierarchy ensure ps
    r.2.1 = false ∧
    (∀ p ∈ ps, ∃ t, pmFind r.1.pm p.id = some t) ∧
    (∀ p ∈ ps, ∀ i, p.parent_id = some i →
      ∃ tq t, pmFind r.1.pm i = some tq ∧ pmFind r.1.pm p.id = some t ∧
        (p.name, some tq, t) ∈ r.1.log) := by
  intro r
  have htops : ∀ p ∈ ps, isTop p = true → p.parent_id = none := by
    intro p hp ht
    rcases (by simpa [isTop] using ht :
        p.parent_id = none ∨ p.parent_id = some "") with h | h
    · exact h
    · obtain ⟨q, hq, hqid⟩ := hclosed p hp "" h
      exact absurd hqid (hne q hq)
  obtain ⟨heFP, hframeFP, hdoneFP, hnoneFP⟩ :=
    firstPass_spec ensure ps ⟨[], []⟩ hids (fun p _ => rfl) htops
  have hrm : ∀ p, p ∈ ps.filter (fun p => ! isTop p) ↔
      (p ∈ ps ∧ isTop p = false) := by
    intro p
    simp [List.mem_filter]
  have hnd0 : ((ps.filter (fun p => ! isTop p)).map (fun p => p.id)).Nodup :=
    hids.sublist ((List.filter_sublist ps).map (fun p => p.id))
  obtain ⟨hstall, hdoneAll⟩ := childLoop_spec ensure ps hclosed rank hrank
    (ps.filter (fun p => ! isTop p)).length
    (ps.filter (fun p => ! isTop p)) (firstPass ensure ps ⟨[], []⟩)
    le_rfl hnd0
    (fun p hp => ((hrm p).mp hp).1)
    (fun p hp => ((hrm p).mp hp).2)
    (fun p hp => hnoneFP p ((hrm p).mp hp).1 ((hrm p).mp hp).2)
    (by
      intro p hps hp2
      have htp : isTop p = true := by
        cases hb : isTop p
        · exact absurd ((hrm p).mpr ⟨hps, hb⟩) hp2
        · rfl
      exact hdoneFP p hps htp)
  have hr : r = childLoop ensure (firstPass ensure ps ⟨[], []⟩)
      (ps.filter (fun p => ! isTop p)) := rfl
  refine ⟨by rw [hr]; exact hstall, ?_, ?_⟩
  · intro p hp
    obtain ⟨t, h1, -, -⟩ := hdoneAll p hp
    exact ⟨t, by rw [hr]; exact h1⟩
  · intro p hp i hi
    obtain ⟨t, h1, -, h3⟩ := hdoneAll p hp
    obtain ⟨tq, hq1, hq2⟩ := h3 i hi
    exact ⟨tq, t, by rw [hr]; exact hq1, by rw [hr]; exact h1,
      by rw [hr]; exact hq2⟩

/-- Witness for C3: a two-project parent/child forest is fully replicated
without a stall. -/
theorem migrate_site_hierarchy_replicates_witness :
    (migrate_site_hierarchy (fun n _ => "T" ++ n)
      [⟨"a", "A", none⟩, ⟨"b", "B", some "a"⟩]).2.1 = false ∧
    (∃ t, pmFind (migrate_site_hierarchy (fun n _ => "T" ++ n)
      [⟨"a", "A", none⟩, ⟨"b", "B", some "a"⟩]).1.pm "b" = some t) := by
  have h := migrate_site_hierarchy_replicates (fun n _ => "T" ++ n)
    [⟨"a", "A", none⟩, ⟨"b", "B", some "a"⟩]
    (by decide) (by decide)
    (by
      intro p hp i hi
      fin_cases hp
      · exact absurd hi (by simp)
      · exact ⟨⟨"a", "A", none⟩, by simp, by simpa using hi⟩)
    (fun p => if p.id = "b" then 1 else 0)
    (by
      intro p hp q hq hpq
      fin_cases hp <;> fin_cases hq <;> simp_all)
  exact ⟨h.1, h.2.1 ⟨"b", "B", some "a"⟩ (by simp)⟩

/-- C4: the child-project replication loop of migrate_site terminates on
every finite input: each pass either handles at least one remaining project
(strictly shrinking the remaining list) or breaks as a logged stall after
that pass; an input with only top-level projects runs zero passes; and the
number of passes never exceeds the length of the remaining list. -/
theorem childLoop_terminates_spec (ensure : String → Option String → String) :
    (∀ (st : SiteSt) (rem : List ProjectItem),
      (onePass ensure st rem).2 = [] ∨
      (rem.filter (fun p => decide (¬ p ∈ (onePass ensure st rem).2))).length <
        rem.length) ∧
    (∀ st : SiteSt, childLoop ensure st [] = (st, false, 0)) ∧
    (∀ (st : SiteSt) (rem : List ProjectItem), ¬ rem = [] →
      (onePass ensure st rem).2 = [] →
      childLoop ensure st rem = ((onePass ensure st rem).1, true, 1)) ∧
    (∀ (st : SiteSt) (rem : List ProjectItem),
      (childLoop ensure st rem).2.2 ≤ rem.length) := by
  have hbound : ∀ (n : Nat) (rem : List ProjectItem) (st : SiteSt),
      rem.length ≤ n → (childLoop ensure st rem).2.2 ≤ rem.length := by
    intro n
    induction n with
    | zero =>
      intro rem st hlen
      have hrem : rem = [] := List.eq_nil_of_length_eq_zero (Nat.le_zero.mp hlen)
      subst hrem
      rw [childLoop_nil]
      simp
    | succ m ih =>
      intro rem st hlen
      by_cases hrem : rem = []
      · subst hrem
        rw [childLoop_nil]
        simp
      · by_cases hh : (onePass ensure st rem).2 = []
        · rw [childLoop_stall ensure st rem hrem hh]
          have : 1 ≤ rem.length := by
            cases rem with
            | nil => exact absurd rfl hrem
            | cons x xs => simp
          simpa using this
        · rw [childLoop_step ensure st rem hrem hh]
          have hflt := childLoop_filter_lt ensure st rem hh
          have hrec := ih (rem.filter (fun p =>
            decide (¬ p ∈ (onePass ensure st rem).2)))
            (onePass ensure st rem).1 (by omega)
          show (childLoop ensure (onePass ensure st rem).1
            (rem.filter (fun p =>
              decide (¬ p ∈ (onePass ensure st rem).2)))).2.2 + 1 ≤ rem.length
          omega
  refine ⟨?_, ?_, ?_, fun st rem => hbound rem.length rem st le_rfl⟩
  · intro st rem
    by_cases hh : (onePass ensure st rem).2 = []
    · exact Or.inl hh
    · exact Or.inr (childLoop_filter_lt ensure st rem hh)
  · intro st
    exact childLoop_nil ensure st
  · intro st rem hrem hh
    exact childLoop_stall ensure st rem hrem hh

/-- Witness for C4: an orphan child (parent never mapped) stalls after one
pass, and an empty remaining list runs zero passes. -/
theorem childLoop_terminates_spec_witness :
    childLoop (fun n _ => n) ⟨[], []⟩ [⟨"b", "B", some "zz"⟩] =
      ((onePass (fun n _ => n) ⟨[], []⟩ [⟨"b", "B", some "zz"⟩]).1, true, 1) ∧
    childLoop (fun n _ => n) ⟨[], []⟩ [] = (⟨[], []⟩, false, 0) := by
  have h := childLoop_terminates_spec (fun n _ => n)
  exact ⟨h.2.2.1 ⟨[], []⟩ [⟨"b", "B", some "zz"⟩] (by simp) rfl,
    h.2.1 ⟨[], []⟩⟩

/-- C6: upload_to_nexus returns normally exactly when the HTTP PUT response
status code is 200, 201, or 204; for every other status code it raises an
exception whose message includes the response body text. -/
theorem upload_to_nexus_status (resp : HttpResponse) :
    (upload_to_nexus resp = .ok () ↔
      (resp.status_code = 200 ∨ resp.status_code = 201 ∨ resp.status_code = 204)) ∧
    (¬ (resp.status_code = 200 ∨ resp.status_code = 201 ∨ resp.status_code = 204) →
      ∃ pre, upload_to_nexus resp = .error (pre ++ resp.text)) := by
  constructor
  · constructor
    · intro h
      by_contra hc
      simp [upload_to_nexus, hc] at h
    · intro h
      simp [upload_to_nexus, h]
  · intro h
    exact ⟨"Nexus upload failed: ", by simp [upload_to_nexus, h]⟩

/-- Witness for C6 at a concrete failing and a concrete succeeding
response. -/
theorem upload_to_nexus_status_witness :
    (∃ pre, upload_to_nexus ⟨500, "oops"⟩ = .error (pre ++ "oops")) ∧
    upload_to_nexus ⟨201, "created"⟩ = .ok () := by
  refine ⟨(upload_to_nexus_status ⟨500, "oops"⟩).2 (by decide), ?_⟩
  exact (upload_to_nexus_status ⟨201, "created"⟩).1.mpr (by decide)

/-- C7 counterexample: list_projects has no exception handler, so a failing
enumeration propagates out of it instead of yielding an empty list. -/
theorem list_projects_propagates_counterexample :
    list_projects (.error "enumeration failed") = .error "enumeration failed" ∧
    ¬ list_projects (.error "enumeration failed") = .ok [] := by
  constructor
  · rfl
  · intro h
    simp [list_projects] at h

/-- C7 amended: list_workbooks and list_workbooks_by_project_name log the
error and return an empty list when enumeration of the underlying collection
fails, but list_projects propagates the enumeration exception to the
caller. -/
theorem listing_enumeration_failure (e : String) :
    (∀ project_id, list_workbooks (.error e) project_id = []) ∧
    (∀ wbPager name, list_workbooks_by_project_name (.error e) wbPager name = []) ∧
    (∀ ps name, list_workbooks_by_project_name (.ok ps) (.error e) name = []) ∧
    list_projects (.error e) = .error e := by
  refine ⟨fun project_id => rfl, fun wbPager name => rfl, fun ps name => ?_, rfl⟩
  simp only [list_workbooks_by_project_name]
  cases ps.filter (fun p => decide (strLower p.name = strLower name)) with
  | nil => rfl
  | cons p rest => rfl

/-- C9: ensure_project_exists returns an existing target project only when
its name and parent id both equal the requested ones (None matching only
top-level projects); otherwise it creates a project with exactly the
requested name and parent id; a second call with the same name and parent
on the resulting state returns the very same project and creates nothing. -/
theorem ensure_project_exists_idempotent (target : List ProjectItem)
    (project_name : String) (parent_id : Option String) (freshId gId : String) :
    let r := ensure_project_exists target project_name parent_id freshId
    r.1.name = project_name ∧ r.1.parent_id = parent_id ∧
    (r.2.2 = false → r.1 ∈ target ∧ r.2.1 = target) ∧
    (r.2.2 = true → r.2.1 = target ++ [r.1] ∧ r.1.id = freshId) ∧
    ensure_project_exists r.2.1 project_name parent_id gId = (r.1, r.2.1, false) := by
  intro r
  have hr : r = ensure_project_exists target project_name parent_id freshId := rfl
  rw [ensure_project_exists] at hr
  cases hf : (target.filter (fun p => decide (p.name = project_name))).find?
      (fun p => decide (p.parent_id = parent_id)) with
  | some p =>
    rw [hf] at hr
    have hmem : p ∈ target.filter (fun p => decide (p.name = project_name)) :=
      List.mem_of_find?_eq_some hf
    have hpar : p.parent_id = parent_id := by
      have := List.find?_some hf
      simpa using this
    have hname : p.name = project_name := by
      have := (List.mem_filter.mp hmem).2
      simpa using this
    have hpt : p ∈ target := (List.mem_filter.mp hmem).1
    refine ⟨hr ▸ hname, hr ▸ hpar, fun _ => ⟨hr ▸ hpt, hr ▸ rfl⟩,
      ?_, ?_⟩
    · intro hc
      rw [hr] at hc
      simp at hc
    · rw [hr]
      simp only [ensure_project_exists]
      rw [hf]
  | none =>
    rw [hf] at hr
    have hlast : ensure_project_exists r.2.1 project_name parent_id gId =
        (r.1, r.2.1, false) := by
      rw [hr]
      simp only [ensure_project_exists]
      rw [List.filter_append, List.find?_append]
      have h1 : ([(⟨freshId, project_name, parent_id⟩ : ProjectItem)].filter
          (fun p => decide (p.name = project_name))) =
          [⟨freshId, project_name, parent_id⟩] := by simp
      rw [h1, hf]
      simp
    refine ⟨hr ▸ rfl, hr ▸ rfl, ?_, fun _ => ⟨hr ▸ rfl, hr ▸ rfl⟩, hlast⟩
    intro hc
    rw [hr] at hc
    simp at hc

/-- Witness for C9: a fresh creation followed by an idempotent second call
on an initially empty target site. -/
theorem ensure_project_exists_idempotent_witness :
    (ensure_project_exists [] "A" none "f").2.2 = true ∧
    (ensure_project_exists [] "A" none "f").2.1 =
      [] ++ [(ensure_project_exists [] "A" none "f").1] ∧
    ensure_project_exists (ensure_project_exists [] "A" none "f").2.1 "A" none "g" =
      ((ensure_project_exists [] "A" none "f").1,
       (ensure_project_exists [] "A" none "f").2.1, false) := by
  have h := ensure_project_exists_idempotent [] "A" none "f" "g"
  exact ⟨rfl, (h.2.2.2.1 rfl).1, h.2.2.2.2⟩

/-- C10: a source_project argument longer than 20 characters is used
verbatim as a project id with no lookup (for any enumeration outcome);
an argument of at most 20 characters is resolved only by case-insensitive
name match (raising when no name matches), and any project it resolves to
has a name of at most 20 characters — so a project whose name is longer
than 20 characters can never be selected by name. -/
theorem resolve_source_project_length_rule (ps : List ProjectItem) (arg : String) :
    (arg.length > 20 → ∀ pager, resolve_source_project pager arg = .ok arg) ∧
    (arg.length ≤ 20 →
      ((∀ p ∈ ps, ¬ strLower p.name = strLower arg) →
        resolve_source_project (.ok ps) arg =
          .error ("Project '" ++ arg ++ "' not found on Tableau server")) ∧
      (∀ i, resolve_source_project (.ok ps) arg = .ok i →
        ∃ p ∈ ps, p.id = i ∧ strLower p.name = strLower arg ∧ p.name.length ≤ 20)) := by
  constructor
  · intro hlen pager
    simp [resolve_source_project, hlen]
  · intro hlen
    have hnot : ¬ arg.length > 20 := by omega
    constructor
    · intro hnone
      have hf : ps.find? (fun p => decide (strLower p.name = strLower arg)) = none := by
        rw [List.find?_eq_none]
        intro p hp
        simpa using hnone p hp
      simp [resolve_source_project, hnot, list_projects, hf]
    · intro i hok
      simp only [resolve_source_project, if_neg hnot, list_projects] at hok
      cases hf : ps.find? (fun p => decide (strLower p.name = strLower arg)) with
      | none => rw [hf] at hok; exact absurd hok (by simp)
      | some p =>
        rw [hf] at hok
        have hok2 : (if p.id = "" then
            (Except.error ("Project '" ++ arg ++ "' not found on Tableau server") :
              Except String String)
          else .ok p.id) = .ok i := hok
        have hmem : p ∈ ps := List.mem_of_find?_eq_some hf
        have hmatch : strLower p.name = strLower arg := by
          have := List.find?_some hf
          simpa using this
        by_cases hid : p.id = ""
        · rw [if_pos hid] at hok2
          exact absurd hok2 (by simp)
        · rw [if_neg hid] at hok2
          have : p.id = i := by simpa using hok2
          refine ⟨p, hmem, this, hmatch, ?_⟩
          have : p.name.length = arg.length := by
            rw [← strLower_length p.name, ← strLower_length arg, hmatch]
          omega

/-- Witness for C10: a 21-character argument is taken verbatim even when
listing would fail, and a short argument resolves by case-insensitive
name match to a project with a short name. -/
theorem resolve_source_project_length_rule_witness :
    resolve_source_project (.error "net down") "aaaaaaaaaaaaaaaaaaaaa" =
      .ok "aaaaaaaaaaaaaaaaaaaaa" ∧
    ∃ p ∈ [(⟨"id1", "Finance", none⟩ : ProjectItem)], p.id = "id1" ∧
      strLower p.name = strLower "finance" ∧ p.name.length ≤ 20 := by
  constructor
  · exact (resolve_source_project_length_rule [] "aaaaaaaaaaaaaaaaaaaaa").1
      (by decide) (.error "net down")
  · exact (resolve_source_project_length_rule
      [(⟨"id1", "Finance", none⟩ : ProjectItem)] "finance").2 (by decide) |>.2
      "id1" rfl

end TableauAuto
